import Mathlib

/-!
# penguindex-go: bundle decryption and Drive identifier extraction

A shallow embedding of `internal/config/config.go` (`DecryptBundle`) and of
`internal/gdrive/gdrive.go` (`ExtractFileID`), with the library functions they call
(`encoding/hex`, `x/crypto/pbkdf2`, `crypto/sha256`, `crypto/hmac`, `crypto/aes`,
`crypto/cipher` GCM, `encoding/json`, `regexp`) modelled as executable functions.

Conventions: a byte is a `Nat` below 256 and a byte slice a `List Nat`; a Go `string`
holding text is a Lean `String` and its bytes are its UTF-8 encoding (`stringBytes`);
a Go result pair `(value, error)` whose value is nil on error is an `Except`.
-/

set_option autoImplicit false

deriving instance DecidableEq for Except

/-! ## Bytes -/

/-- Big-endian encoding of `n` on `len` bytes (the low `len` bytes of `n`). -/
def natToBytesBE (len n : Nat) : List Nat :=
  (List.range len).map (fun i => n / 256 ^ (len - 1 - i) % 256)

/-- Big-endian value of a byte string. -/
def bytesToNatBE (bs : List Nat) : Nat := bs.foldl (fun acc b => acc * 256 + b) 0

/-- The Go slice expression `b[lo:hi]`. -/
def sliceBytes (b : List Nat) (lo hi : Nat) : List Nat := (b.drop lo).take (hi - lo)

namespace UTF8

/-- The replacement rune U+FFFD (unicode/utf8 `RuneError`). -/
def RuneError : Nat := 0xFFFD

/-- Model of unicode/utf8 `EncodeRune`: the UTF-8 bytes of a code point; surrogates and
values above U+10FFFF are encoded as U+FFFD. -/
def EncodeRune (r : Nat) : List Nat :=
  if r < 0x80 then [r]
  else if r < 0x800 then [0xC0 + r / 64, 0x80 + r % 64]
  else if (0xD800 ≤ r ∧ r < 0xE000) ∨ 0x10FFFF < r then [0xEF, 0xBF, 0xBD]
  else if r < 0x10000 then [0xE0 + r / 4096, 0x80 + r / 64 % 64, 0x80 + r % 64]
  else [0xF0 + r / 262144, 0x80 + r / 4096 % 64, 0x80 + r / 64 % 64, 0x80 + r % 64]

/-- A continuation byte `10xxxxxx`. -/
def isCont (b : Nat) : Bool := 0x80 ≤ b && b ≤ 0xBF

/-- Model of unicode/utf8 `DecodeRune`: the first rune of `p` and its width in bytes;
an invalid encoding gives `(RuneError, 1)`, the empty input `(RuneError, 0)`. -/
def DecodeRune (p : List Nat) : Nat × Nat :=
  match p with
  | [] => (RuneError, 0)
  | b0 :: rest =>
    if b0 < 0x80 then (b0, 1)
    else if 0xC2 ≤ b0 ∧ b0 ≤ 0xDF then
      match rest with
      | b1 :: _ => if isCont b1 then ((b0 - 0xC0) * 64 + (b1 - 0x80), 2) else (RuneError, 1)
      | _ => (RuneError, 1)
    else if 0xE0 ≤ b0 ∧ b0 ≤ 0xEF then
      match rest with
      | b1 :: b2 :: _ =>
        let lo := if b0 = 0xE0 then 0xA0 else 0x80
        let hi := if b0 = 0xED then 0x9F else 0xBF
        if lo ≤ b1 ∧ b1 ≤ hi ∧ isCont b2 then
          ((b0 - 0xE0) * 4096 + (b1 - 0x80) * 64 + (b2 - 0x80), 3)
        else (RuneError, 1)
      | _ => (RuneError, 1)
    else if 0xF0 ≤ b0 ∧ b0 ≤ 0xF4 then
      match rest with
      | b1 :: b2 :: b3 :: _ =>
        let lo := if b0 = 0xF0 then 0x90 else 0x80
        let hi := if b0 = 0xF4 then 0x8F else 0xBF
        if lo ≤ b1 ∧ b1 ≤ hi ∧ isCont b2 ∧ isCont b3 then
          ((b0 - 0xF0) * 262144 + (b1 - 0x80) * 4096 + (b2 - 0x80) * 64 + (b3 - 0x80), 4)
        else (RuneError, 1)
      | _ => (RuneError, 1)
    else (RuneError, 1)

end UTF8

/-- The bytes of a Go string holding the text `s`: the conversion `[]byte(s)`. -/
def stringBytes (s : String) : List Nat :=
  s.toList.flatMap (fun c => UTF8.EncodeRune c.toNat)

/-! ## encoding/hex -/

namespace Hex

/-- Errors of encoding/hex: `InvalidByteError` and `ErrLength`. -/
inductive Error where
  | invalidByte (b : Nat)
  | length
  deriving DecidableEq, Repr

/-- The value of a hexadecimal digit (encoding/hex `reverseHexTable`). -/
def fromHexChar (c : Nat) : Option Nat :=
  if 0x30 ≤ c ∧ c ≤ 0x39 then some (c - 0x30)
  else if 0x61 ≤ c ∧ c ≤ 0x66 then some (c - 0x61 + 10)
  else if 0x41 ≤ c ∧ c ≤ 0x46 then some (c - 0x41 + 10)
  else none

/-- Model of encoding/hex `Decode`: pairs of digits left to right; the first bad digit is
reported, and an odd length is reported after its pairs and last digit were checked. -/
def Decode : List Nat → Except Error (List Nat)
  | [] => .ok []
  | [p] =>
    match fromHexChar p with
    | none => .error (.invalidByte p)
    | some _ => .error .length
  | p :: q :: rest =>
    match fromHexChar p with
    | none => .error (.invalidByte p)
    | some a =>
      match fromHexChar q with
      | none => .error (.invalidByte q)
      | some b =>
        match Decode rest with
        | .error e => .error e
        | .ok bs => .ok ((a * 16 + b) :: bs)

/-- Model of encoding/hex `DecodeString`. -/
def DecodeString (s : String) : Except Error (List Nat) := Decode (stringBytes s)

/-- The lower-case hexadecimal digit of a value below 16 (encoding/hex `hextable`). -/
def hexDigit (n : Nat) : Char := Char.ofNat (if n < 10 then 0x30 + n else 0x57 + n)

/-- Model of encoding/hex `EncodeToString`: two lower-case digits per byte. -/
def EncodeToString (bs : List Nat) : String :=
  String.mk (bs.flatMap (fun b => [hexDigit (b / 16), hexDigit (b % 16)]))

end Hex

/-! ## crypto/sha256, crypto/hmac, x/crypto/pbkdf2 -/

namespace SHA256

/-- Round constants of SHA-256 (FIPS 180-4). -/
def K : List Nat := [
   0x428a2f98, 0x71374491, 0xb5c0fbcf, 0xe9b5dba5, 0x3956c25b, 0x59f111f1, 0x923f82a4, 0xab1c5ed5,
   0xd807aa98, 0x12835b01, 0x243185be, 0x550c7dc3, 0x72be5d74, 0x80deb1fe, 0x9bdc06a7, 0xc19bf174,
   0xe49b69c1, 0xefbe4786, 0x0fc19dc6, 0x240ca1cc, 0x2de92c6f, 0x4a7484aa, 0x5cb0a9dc, 0x76f988da,
   0x983e5152, 0xa831c66d, 0xb00327c8, 0xbf597fc7, 0xc6e00bf3, 0xd5a79147, 0x06ca6351, 0x14292967,
   0x27b70a85, 0x2e1b2138, 0x4d2c6dfc, 0x53380d13, 0x650a7354, 0x766a0abb, 0x81c2c92e, 0x92722c85,
   0xa2bfe8a1, 0xa81a664b, 0xc24b8b70, 0xc76c51a3, 0xd192e819, 0xd6990624, 0xf40e3585, 0x106aa070,
   0x19a4c116, 0x1e376c08, 0x2748774c, 0x34b0bcb5, 0x391c0cb3, 0x4ed8aa4a, 0x5b9cca4f, 0x682e6ff3,
   0x748f82ee, 0x78a5636f, 0x84c87814, 0x8cc70208, 0x90befffa, 0xa4506ceb, 0xbef9a3f7, 0xc67178f2]

/-- Initial hash value of SHA-256. -/
def init : List Nat := [
   0x6a09e667, 0xbb67ae85, 0x3c6ef372, 0xa54ff53a, 0x510e527f, 0x9b05688c, 0x1f83d9ab, 0x5be0cd19]

/-- Digest size in bytes (`sha256.Size`). -/
def Size : Nat := 32

/-- Block size in bytes (`sha256.BlockSize`). -/
def BlockSize : Nat := 64

/-- Rotation to the right of a 32-bit word. -/
def rotr (x n : Nat) : Nat := ((x >>> n) ||| (x <<< (32 - n))) % 2 ^ 32

/-- The padded message: a `0x80` byte, zeros up to 56 modulo 64, the bit length on 8 bytes. -/
def pad (msg : List Nat) : List Nat :=
  msg ++ [0x80] ++ List.replicate ((119 - msg.length % 64) % 64) 0
    ++ natToBytesBE 8 (msg.length * 8)

/-- Word `i` of a block, big-endian. -/
def word (block : List Nat) (i : Nat) : Nat :=
  bytesToNatBE ((block.drop (4 * i)).take 4)

/-- Message schedule: the 64 words of a block. -/
def schedule (block : List Nat) : List Nat :=
  (List.range 48).foldl
    (fun w _ =>
      let t := w.length
      let w2 := w.getD (t - 2) 0
      let w15 := w.getD (t - 15) 0
      let s0 := rotr w15 7 ^^^ rotr w15 18 ^^^ (w15 >>> 3)
      let s1 := rotr w2 17 ^^^ rotr w2 19 ^^^ (w2 >>> 10)
      w ++ [(s1 + w.getD (t - 7) 0 + s0 + w.getD (t - 16) 0) % 2 ^ 32])
    ((List.range 16).map (word block))

/-- One round of the compression function on the working variables `a..h`. -/
def round (st : List Nat) (kw : Nat × Nat) : List Nat :=
  match st with
  | [a, b, c, d, e, f, g, h] =>
      let t1 := (h + (rotr e 6 ^^^ rotr e 11 ^^^ rotr e 25)
        + ((e &&& f) ^^^ ((e ^^^ 0xffffffff) &&& g)) + kw.1 + kw.2) % 2 ^ 32
      let t2 := ((rotr a 2 ^^^ rotr a 13 ^^^ rotr a 22)
        + ((a &&& b) ^^^ (a &&& c) ^^^ (b &&& c))) % 2 ^ 32
      [(t1 + t2) % 2 ^ 32, a, b, c, (d + t1) % 2 ^ 32, e, f, g]
  | _ => st

/-- Compression of one block into the hash value. -/
def compress (h : List Nat) (block : List Nat) : List Nat :=
  List.zipWith (fun x y => (x + y) % 2 ^ 32) h ((K.zip (schedule block)).foldl round h)

/-- The first `n` 64-byte blocks of a buffer. -/
def blocks : Nat → List Nat → List (List Nat)
  | 0, _ => []
  | n + 1, bs => bs.take 64 :: blocks n (bs.drop 64)

/-- The eight words of the digest. -/
def digestWords (msg : List Nat) : List Nat :=
  let p := pad msg
  (blocks (p.length / 64) p).foldl compress init

/-- Model of crypto/sha256 `Sum256`: the 32 bytes of the digest. -/
def Sum256 (msg : List Nat) : List Nat :=
  let h := digestWords msg
  (List.range Size).map (fun j => h.getD (j / 4) 0 / 256 ^ (3 - j % 4) % 256)

end SHA256

namespace HMAC

/-- Model of crypto/hmac with SHA-256: `hmac.New(sha256.New, key)` written with `msg` and
summed. A key longer than a block is hashed first, then padded with zeros. -/
def Sum (key msg : List Nat) : List Nat :=
  let key := if key.length > SHA256.BlockSize then SHA256.Sum256 key else key
  let key := key ++ List.replicate (SHA256.BlockSize - key.length) 0
  let ipad := key.map (fun b => b ^^^ 0x36)
  let opad := key.map (fun b => b ^^^ 0x5c)
  SHA256.Sum256 (opad ++ SHA256.Sum256 (ipad ++ msg))

end HMAC

namespace PBKDF2

/-- The loop `for x := range U { T[x] ^= U[x] }`: `t` with `u` XOR-ed into it. -/
def xorInto : List Nat → List Nat → List Nat
  | [], _ => []
  | t :: ts, [] => t :: ts
  | t :: ts, u :: us => (t ^^^ u) :: xorInto ts us

/-- The inner loop `for n := 2; n <= iter; n++`, run `n` more times from `U = u`, `T = t`. -/
def iterate (password : List Nat) : Nat → List Nat → List Nat → List Nat
  | 0, _, t => t
  | n + 1, u, t =>
      let u := HMAC.Sum password u
      iterate password n u (xorInto t u)

/-- Block `T_i = U_1 ^ U_2 ^ ... ^ U_iter` with `U_1 = PRF(password, salt || uint32(i))`. -/
def block (password salt : List Nat) (iter i : Nat) : List Nat :=
  let t := HMAC.Sum password (salt ++ natToBytesBE 4 i)
  iterate password (iter - 1) t t

/-- Model of x/crypto/pbkdf2 `Key` with `sha256.New` as the hash: the first `keyLen`
bytes of `T_1 || T_2 || ...`. -/
def Key (password salt : List Nat) (iter keyLen : Nat) : List Nat :=
  let hashLen := SHA256.Size
  let numBlocks := (keyLen + hashLen - 1) / hashLen
  let dk := (List.range numBlocks).flatMap (fun b => block password salt iter (b + 1))
  dk.take keyLen

end PBKDF2

/-! ## crypto/aes -/

/-- A block cipher instance (crypto/cipher `Block`): block size and encryption function. -/
structure Block where
  blockSize : Nat
  encrypt : List Nat → List Nat

namespace AES

/-- The error of `aes.NewCipher` on a key that is not 16, 24 or 32 bytes long. -/
inductive KeySizeError where
  | mk (size : Nat)
  deriving DecidableEq, Repr

/-- The AES substitution box (FIPS 197). -/
def sbox : List Nat := [
   0x63, 0x7c, 0x77, 0x7b, 0xf2, 0x6b, 0x6f, 0xc5, 0x30, 0x01, 0x67, 0x2b, 0xfe, 0xd7, 0xab, 0x76,
   0xca, 0x82, 0xc9, 0x7d, 0xfa, 0x59, 0x47, 0xf0, 0xad, 0xd4, 0xa2, 0xaf, 0x9c, 0xa4, 0x72, 0xc0,
   0xb7, 0xfd, 0x93, 0x26, 0x36, 0x3f, 0xf7, 0xcc, 0x34, 0xa5, 0xe5, 0xf1, 0x71, 0xd8, 0x31, 0x15,
   0x04, 0xc7, 0x23, 0xc3, 0x18, 0x96, 0x05, 0x9a, 0x07, 0x12, 0x80, 0xe2, 0xeb, 0x27, 0xb2, 0x75,
   0x09, 0x83, 0x2c, 0x1a, 0x1b, 0x6e, 0x5a, 0xa0, 0x52, 0x3b, 0xd6, 0xb3, 0x29, 0xe3, 0x2f, 0x84,
   0x53, 0xd1, 0x00, 0xed, 0x20, 0xfc, 0xb1, 0x5b, 0x6a, 0xcb, 0xbe, 0x39, 0x4a, 0x4c, 0x58, 0xcf,
   0xd0, 0xef, 0xaa, 0xfb, 0x43, 0x4d, 0x33, 0x85, 0x45, 0xf9, 0x02, 0x7f, 0x50, 0x3c, 0x9f, 0xa8,
   0x51, 0xa3, 0x40, 0x8f, 0x92, 0x9d, 0x38, 0xf5, 0xbc, 0xb6, 0xda, 0x21, 0x10, 0xff, 0xf3, 0xd2,
   0xcd, 0x0c, 0x13, 0xec, 0x5f, 0x97, 0x44, 0x17, 0xc4, 0xa7, 0x7e, 0x3d, 0x64, 0x5d, 0x19, 0x73,
   0x60, 0x81, 0x4f, 0xdc, 0x22, 0x2a, 0x90, 0x88, 0x46, 0xee, 0xb8, 0x14, 0xde, 0x5e, 0x0b, 0xdb,
   0xe0, 0x32, 0x3a, 0x0a, 0x49, 0x06, 0x24, 0x5c, 0xc2, 0xd3, 0xac, 0x62, 0x91, 0x95, 0xe4, 0x79,
   0xe7, 0xc8, 0x37, 0x6d, 0x8d, 0xd5, 0x4e, 0xa9, 0x6c, 0x56, 0xf4, 0xea, 0x65, 0x7a, 0xae, 0x08,
   0xba, 0x78, 0x25, 0x2e, 0x1c, 0xa6, 0xb4, 0xc6, 0xe8, 0xdd, 0x74, 0x1f, 0x4b, 0xbd, 0x8b, 0x8a,
   0x70, 0x3e, 0xb5, 0x66, 0x48, 0x03, 0xf6, 0x0e, 0x61, 0x35, 0x57, 0xb9, 0x86, 0xc1, 0x1d, 0x9e,
   0xe1, 0xf8, 0x98, 0x11, 0x69, 0xd9, 0x8e, 0x94, 0x9b, 0x1e, 0x87, 0xe9, 0xce, 0x55, 0x28, 0xdf,
   0x8c, 0xa1, 0x89, 0x0d, 0xbf, 0xe6, 0x42, 0x68, 0x41, 0x99, 0x2d, 0x0f, 0xb0, 0x54, 0xbb, 0x16]

/-- Block size in bytes (`aes.BlockSize`). -/
def BlockSize : Nat := 16

/-- S-box lookup. -/
def sub (b : Nat) : Nat := sbox.getD b 0

/-- Multiplication by `x` in GF(2^8) modulo `x^8 + x^4 + x^3 + x + 1`. -/
def xtime (b : Nat) : Nat := if b < 0x80 then 2 * b else (2 * b % 256) ^^^ 0x1b

/-- Round constant `x^i` in GF(2^8). -/
def rcon : Nat → Nat
  | 0 => 1
  | i + 1 => xtime (rcon i)

/-- Key schedule: the expanded key as 4-byte words, `4 * (rounds + 1)` of them, for a key
of `nk = len / 4` words and `nk + 6` rounds. -/
def expandKey (key : List Nat) : List (List Nat) :=
  let nk := key.length / 4
  let total := 4 * (nk + 7)
  (List.range (total - nk)).foldl
    (fun w _ =>
      let i := w.length
      let prev := w.getD (i - 1) []
      let t :=
        if i % nk = 0 then
          match (prev.rotateLeft 1).map sub with
          | b :: bs => (b ^^^ rcon (i / nk - 1)) :: bs
          | [] => []
        else if nk > 6 ∧ i % nk = 4 then prev.map sub
        else prev
      w ++ [List.zipWith (fun x y => x ^^^ y) (w.getD (i - nk) []) t])
    ((List.range nk).map (fun i => (key.drop (4 * i)).take 4))

/-- XOR of the state with round key `r`, stored back as bytes. -/
def addRoundKey (w : List (List Nat)) (r : Nat) (st : List Nat) : List Nat :=
  List.zipWith (fun x y => (x ^^^ y) % 256) st ((w.drop (4 * r)).take 4).flatten

/-- S-box applied to every byte of the state. -/
def subBytes (st : List Nat) : List Nat := st.map sub

/-- Row `r` rotated left by `r`; the state is stored column by column, byte `r + 4 * c`
being row `r` of column `c`. -/
def shiftRows (st : List Nat) : List Nat :=
  (List.range 16).map (fun i => st.getD (i % 4 + 4 * ((i / 4 + i % 4) % 4)) 0)

/-- One column multiplied by the MixColumns matrix. -/
def mixColumn (col : List Nat) : List Nat :=
  match col with
  | [a0, a1, a2, a3] =>
      [xtime a0 ^^^ (xtime a1 ^^^ a1) ^^^ a2 ^^^ a3,
       a0 ^^^ xtime a1 ^^^ (xtime a2 ^^^ a2) ^^^ a3,
       a0 ^^^ a1 ^^^ xtime a2 ^^^ (xtime a3 ^^^ a3),
       (xtime a0 ^^^ a0) ^^^ a1 ^^^ a2 ^^^ xtime a3]
  | _ => col

/-- MixColumns on the four columns of the state. -/
def mixColumns (st : List Nat) : List Nat :=
  (List.range 4).flatMap (fun c => mixColumn ((st.drop (4 * c)).take 4))

/-- Encryption of one 16-byte block under the expanded key `w`. -/
def encryptBlock (w : List (List Nat)) (rounds : Nat) (src : List Nat) : List Nat :=
  let st := addRoundKey w 0 (src.take 16)
  let st := (List.range (rounds - 1)).foldl
    (fun st r => addRoundKey w (r + 1) (mixColumns (shiftRows (subBytes st)))) st
  addRoundKey w rounds (shiftRows (subBytes st))

/-- Model of crypto/aes `NewCipher`: a key of 16, 24 or 32 bytes selects AES-128, AES-192
or AES-256; any other length is a `KeySizeError`. -/
def NewCipher (key : List Nat) : Except KeySizeError Block :=
  let k := key.length
  if k = 16 ∨ k = 24 ∨ k = 32 then
    .ok ⟨BlockSize, encryptBlock (expandKey key) (k / 4 + 6)⟩
  else .error (.mk k)

end AES

/-! ## crypto/cipher: Galois/Counter Mode -/

namespace GCM

/-- Block size GCM requires of its cipher. -/
def gcmBlockSize : Nat := 16

/-- Size of the authentication tag. -/
def gcmTagSize : Nat := 16

/-- Size of the standard nonce. -/
def gcmStandardNonceSize : Nat := 12

/-- A GCM instance (crypto/cipher `AEAD` as built by `NewGCM`). -/
structure AEAD where
  cipher : Block
  nonceSize : Nat
  tagSize : Nat

/-- Model of crypto/cipher `NewGCM`: fails unless the cipher has 128-bit blocks. -/
def NewGCM (cipher : Block) : Option AEAD :=
  if cipher.blockSize ≠ gcmBlockSize then none
  else some ⟨cipher, gcmStandardNonceSize, gcmTagSize⟩

/-- The method `NonceSize`. -/
def NonceSize (g : AEAD) : Nat := g.nonceSize

/-- Multiplication in GF(2^128) with the bit order of GCM; a block is the big-endian
number of its 16 bytes. -/
def gfMul (x y : Nat) : Nat :=
  ((List.range 128).foldl
    (fun (zv : Nat × Nat) i =>
      let z := if x.testBit (127 - i) then zv.1 ^^^ zv.2 else zv.1
      let v := if zv.2.testBit 0 then (zv.2 >>> 1) ^^^ (0xe1 <<< 120) else zv.2 >>> 1
      (z, v))
    (0, y)).1

/-- Absorbs `n` blocks of `data`, the last one zero-padded, into the GHASH value `y`. -/
def update (h : Nat) : Nat → Nat → List Nat → Nat
  | 0, y, _ => y
  | n + 1, y, data =>
      let blk := data.take 16
      update h n (gfMul (y ^^^ bytesToNatBE (blk ++ List.replicate (16 - blk.length) 0)) h)
        (data.drop 16)

/-- GHASH of `data` padded to whole blocks, continued from `y`. -/
def ghash (h : Nat) (data : List Nat) (y : Nat) : Nat :=
  update h ((data.length + 15) / 16) y data

/-- The final GHASH block: both lengths in bits, 64 bits each. -/
def lengthBlock (aLen cLen : Nat) : Nat := (aLen * 8 % 2 ^ 64) * 2 ^ 64 + cLen * 8 % 2 ^ 64

/-- The hash key `H`: the encryption of the zero block. -/
def hashKey (g : AEAD) : Nat := bytesToNatBE (g.cipher.encrypt (List.replicate 16 0))

/-- The initial counter block: `nonce || 0x00000001` for a 12-byte nonce, GHASH of the
nonce otherwise. -/
def deriveCounter (g : AEAD) (nonce : List Nat) : List Nat :=
  if nonce.length = gcmStandardNonceSize then nonce ++ [0, 0, 0, 1]
  else
    natToBytesBE 16
      (gfMul (ghash (hashKey g) nonce 0 ^^^ lengthBlock 0 nonce.length) (hashKey g))

/-- Increment of the last four bytes of the counter as a big-endian 32-bit number. -/
def gcmInc32 (counter : List Nat) : List Nat :=
  counter.take 12 ++ natToBytesBE 4 (bytesToNatBE (counter.drop 12) + 1)

/-- The counter after `n` increments. -/
def incN : Nat → List Nat → List Nat
  | 0, c => c
  | n + 1, c => incN n (gcmInc32 c)

/-- Byte `i` of the CTR key stream that starts at `counter`. -/
def keyStreamByte (g : AEAD) (counter : List Nat) (i : Nat) : Nat :=
  (g.cipher.encrypt (incN (i / 16) counter)).getD (i % 16) 0

/-- XOR of a buffer with a key stream from position `i` on. -/
def xorStream (ks : Nat → Nat) : Nat → List Nat → List Nat
  | _, [] => []
  | i, b :: bs => (b ^^^ ks i) :: xorStream ks (i + 1) bs

/-- CTR-mode encryption or decryption of `src` from `counter` on. -/
def counterCrypt (g : AEAD) (counter : List Nat) (src : List Nat) : List Nat :=
  xorStream (keyStreamByte g counter) 0 src

/-- The tag: GHASH over the associated data, the ciphertext and their lengths, XOR-ed
with the encrypted initial counter `tagMask`. -/
def auth (g : AEAD) (ciphertext data : List Nat) (tagMask : List Nat) : List Nat :=
  let h := hashKey g
  let y := ghash h ciphertext (ghash h data 0)
  let y := gfMul (y ^^^ lengthBlock data.length ciphertext.length) h
  natToBytesBE 16 (y ^^^ bytesToNatBE tagMask)

/-- Largest plaintext GCM accepts: `((1 << 32) - 2) * BlockSize` bytes. -/
def maxPlaintext (g : AEAD) : Nat := (2 ^ 32 - 2) * g.cipher.blockSize

/-- Model of the method `Seal` with a nil destination: ciphertext followed by the tag.
`none` stands for its panics (wrong nonce length, message too large). -/
def Seal (g : AEAD) (nonce plaintext data : List Nat) : Option (List Nat) :=
  if nonce.length ≠ g.nonceSize then none
  else if plaintext.length > maxPlaintext g then none
  else
    let counter := deriveCounter g nonce
    let tagMask := g.cipher.encrypt counter
    let out := counterCrypt g (gcmInc32 counter) plaintext
    some (out ++ (auth g out data tagMask).take g.tagSize)

/-- Model of the method `Open` with a nil destination, for a nonce of `NonceSize` bytes
(the caller checks the size; `Open` panics on any other): `none` is the error `errOpen`,
"cipher: message authentication failed", returned when the input is shorter than a tag,
longer than GCM allows, or its tag is not the expected one. -/
def Open (g : AEAD) (nonce ciphertext data : List Nat) : Option (List Nat) :=
  if ciphertext.length < g.tagSize then none
  else if ciphertext.length > maxPlaintext g + g.tagSize then none
  else
    let tag := ciphertext.drop (ciphertext.length - g.tagSize)
    let ciphertext := ciphertext.take (ciphertext.length - g.tagSize)
    let counter := deriveCounter g nonce
    let tagMask := g.cipher.encrypt counter
    let expectedTag := auth g ciphertext data tagMask
    if expectedTag.take g.tagSize ≠ tag then none
    else some (counterCrypt g (gcmInc32 counter) ciphertext)

end GCM

/-! ## encoding/json -/

namespace JSON

/-- A parsed JSON value. Numbers keep no value: the decoder below only needs their kind. -/
inductive Value where
  | null
  | bool (b : Bool)
  | number
  | string (s : String)
  | array (elems : List Value)
  | object (members : List (String × Value))

/-- Errors of `json.Unmarshal`: a `SyntaxError` of the input, or the first
`UnmarshalTypeError`, with the kind of JSON value met and the Go field it was meant for. -/
inductive Error where
  | malformed
  | typeMismatch (value : String) (field : String)
  deriving DecidableEq, Repr

/-- Deepest nesting of arrays and objects the scanner accepts. -/
def maxNestingDepth : Nat := 10000

/-- JSON white space: space, tab, carriage return, line feed. -/
def isSpace (b : Nat) : Bool := b == 0x20 || b == 0x09 || b == 0x0D || b == 0x0A

/-- The input without its leading white space. -/
def skipSpace (bs : List Nat) : List Nat := bs.dropWhile isSpace

/-- A decimal digit. -/
def isDigit (b : Nat) : Bool := 0x30 ≤ b && b ≤ 0x39

/-- The value of a hexadecimal digit of either case. -/
def hexVal (b : Nat) : Option Nat :=
  if 0x30 ≤ b ∧ b ≤ 0x39 then some (b - 0x30)
  else if 0x61 ≤ b ∧ b ≤ 0x66 then some (b - 0x61 + 10)
  else if 0x41 ≤ b ∧ b ≤ 0x46 then some (b - 0x41 + 10)
  else none

/-- The code unit of a `\uXXXX` escape at the head of `s`, if there is one (`getu4`). -/
def getu4 (s : List Nat) : Option Nat :=
  match s with
  | 0x5C :: 0x75 :: h1 :: h2 :: h3 :: h4 :: _ =>
    match hexVal h1, hexVal h2, hexVal h3, hexVal h4 with
    | some a, some b, some c, some d => some (a * 4096 + b * 256 + c * 16 + d)
    | _, _, _, _ => none
  | _ => none

/-- The character of a two-byte escape: quote, backslash, slash, `b`, `f`, `n`, `r`, `t`. -/
def simpleEscape (e : Nat) : Option Char :=
  if e = 0x22 then some (Char.ofNat 0x22)
  else if e = 0x5C then some (Char.ofNat 0x5C)
  else if e = 0x2F then some (Char.ofNat 0x2F)
  else if e = 0x62 then some (Char.ofNat 8)
  else if e = 0x66 then some (Char.ofNat 12)
  else if e = 0x6E then some (Char.ofNat 10)
  else if e = 0x72 then some (Char.ofNat 13)
  else if e = 0x74 then some (Char.ofNat 9)
  else none

/-- Puts a decoded character in front of the rest of a string literal. -/
def consChar (c : Char) (r : Option (List Char × List Nat)) : Option (List Char × List Nat) :=
  r.map (fun p => (c :: p.1, p.2))

/-- Reads a string literal whose opening quote has been consumed: the decoded text
(`unquote`) and the input after the closing quote. Control bytes and bad escapes are
refused; a lone surrogate escape and invalid UTF-8 decode to U+FFFD. The first argument
bounds the number of characters read. -/
def parseStringAux : Nat → List Nat → Option (List Char × List Nat)
  | 0, _ => none
  | _ + 1, [] => none
  | fuel + 1, b :: bs =>
    if b = 0x22 then some ([], bs)
    else if b = 0x5C then
      match bs with
      | [] => none
      | e :: bs1 =>
        if e = 0x75 then
          match getu4 (b :: bs) with
          | none => none
          | some rr =>
            if 0xD800 ≤ rr ∧ rr < 0xE000 then
              match getu4 (bs.drop 5) with
              | some rr1 =>
                if rr < 0xDC00 ∧ 0xDC00 ≤ rr1 ∧ rr1 < 0xE000 then
                  consChar (Char.ofNat ((rr - 0xD800) * 1024 + (rr1 - 0xDC00) + 0x10000))
                    (parseStringAux fuel (bs.drop 11))
                else consChar (Char.ofNat UTF8.RuneError) (parseStringAux fuel (bs.drop 5))
              | none => consChar (Char.ofNat UTF8.RuneError) (parseStringAux fuel (bs.drop 5))
            else consChar (Char.ofNat rr) (parseStringAux fuel (bs.drop 5))
        else
          match simpleEscape e with
          | some c => consChar c (parseStringAux fuel bs1)
          | none => none
    else if b < 0x20 then none
    else if b < 0x80 then consChar (Char.ofNat b) (parseStringAux fuel bs)
    else
      let d := UTF8.DecodeRune (b :: bs)
      consChar (Char.ofNat d.1) (parseStringAux fuel (bs.drop (d.2 - 1)))

/-- A string literal after its opening quote; every character takes at least one byte, so
the length of the input bounds their number. -/
def parseString (bs : List Nat) : Option (String × List Nat) :=
  (parseStringAux bs.length bs).map (fun p => (String.mk p.1, p.2))

/-- The optional exponent of a number. -/
def parseExp (bs : List Nat) : Option (List Nat) :=
  match bs with
  | e :: r =>
    if e = 0x65 ∨ e = 0x45 then
      let r := match r with
        | s :: r1 => if s = 0x2B ∨ s = 0x2D then r1 else r
        | [] => r
      match r with
      | d :: r2 => if isDigit d then some (r2.dropWhile isDigit) else none
      | [] => none
    else some bs
  | [] => some bs

/-- The optional fraction of a number, then its exponent. -/
def parseFrac (bs : List Nat) : Option (List Nat) :=
  match bs with
  | p :: r =>
    if p = 0x2E then
      match r with
      | d :: r1 => if isDigit d then parseExp (r1.dropWhile isDigit) else none
      | [] => none
    else parseExp bs
  | [] => some bs

/-- Reads a number literal and returns the input after it. -/
def parseNumber (bs : List Nat) : Option (List Nat) :=
  let bs := match bs with
    | m :: r => if m = 0x2D then r else bs
    | [] => bs
  match bs with
  | d :: r =>
    if d = 0x30 then parseFrac r
    else if 0x31 ≤ d ∧ d ≤ 0x39 then parseFrac (r.dropWhile isDigit)
    else none
  | [] => none

/-- The input after the literal bytes `p`, if it starts with them. -/
def dropLiteral (p bs : List Nat) : Option (List Nat) :=
  if p.isPrefixOf bs then some (bs.drop p.length) else none

/-- A reader of one item from the head of the input. -/
abbrev Reader (α : Type) := List Nat → Except Error (α × List Nat)

/-- The elements of a non-empty array, from its first value to the closing bracket. -/
def parseElements (pv : Reader Value) : Nat → Reader (List Value)
  | 0, _ => .error .malformed
  | fuel + 1, bs =>
    match pv bs with
    | .error e => .error e
    | .ok (v, r) =>
      match skipSpace r with
      | 0x2C :: r1 =>
        match parseElements pv fuel (skipSpace r1) with
        | .error e => .error e
        | .ok (vs, r2) => .ok (v :: vs, r2)
      | 0x5D :: r1 => .ok ([v], r1)
      | _ => .error .malformed

/-- The members of a non-empty object, from the quote of its first key to the closing
brace. -/
def parseMembers (pv : Reader Value) : Nat → Reader (List (String × Value))
  | 0, _ => .error .malformed
  | fuel + 1, bs =>
    match bs with
    | 0x22 :: r =>
      match parseString r with
      | none => .error .malformed
      | some (key, r1) =>
        match skipSpace r1 with
        | 0x3A :: r2 =>
          match pv (skipSpace r2) with
          | .error e => .error e
          | .ok (v, r3) =>
            match skipSpace r3 with
            | 0x2C :: r4 =>
              match parseMembers pv fuel (skipSpace r4) with
              | .error e => .error e
              | .ok (ms, r5) => .ok ((key, v) :: ms, r5)
            | 0x7D :: r4 => .ok ([(key, v)], r4)
            | _ => .error .malformed
        | _ => .error .malformed
    | _ => .error .malformed

/-- Reads one JSON value at the head of the input, leading space already skipped; `depth`
counts the enclosing arrays and objects. The first argument bounds the nesting of calls
and the number of items of an array or object; every call consumes a byte first, so the
length of the input is enough. -/
def parseValue : Nat → Nat → Reader Value
  | 0, _, _ => .error .malformed
  | fuel + 1, depth, bs =>
    match bs with
    | [] => .error .malformed
    | b :: r =>
      if b = 0x7B then
        if depth + 1 > maxNestingDepth then .error .malformed
        else
          match skipSpace r with
          | 0x7D :: r1 => .ok (.object [], r1)
          | r1 =>
            match parseMembers (parseValue fuel (depth + 1)) fuel r1 with
            | .error e => .error e
            | .ok (ms, r2) => .ok (.object ms, r2)
      else if b = 0x5B then
        if depth + 1 > maxNestingDepth then .error .malformed
        else
          match skipSpace r with
          | 0x5D :: r1 => .ok (.array [], r1)
          | r1 =>
            match parseElements (parseValue fuel (depth + 1)) fuel r1 with
            | .error e => .error e
            | .ok (vs, r2) => .ok (.array vs, r2)
      else if b = 0x22 then
        match parseString r with
        | none => .error .malformed
        | some (s, r1) => .ok (.string s, r1)
      else if b = 0x74 then
        match dropLiteral [0x72, 0x75, 0x65] r with
        | some r1 => .ok (.bool true, r1)
        | none => .error .malformed
      else if b = 0x66 then
        match dropLiteral [0x61, 0x6C, 0x73, 0x65] r with
        | some r1 => .ok (.bool false, r1)
        | none => .error .malformed
      else if b = 0x6E then
        match dropLiteral [0x75, 0x6C, 0x6C] r with
        | some r1 => .ok (.null, r1)
        | none => .error .malformed
      else
        match parseNumber bs with
        | some r1 => .ok (.number, r1)
        | none => .error .malformed

/-- The whole input as one JSON value with optional white space around it (`checkValid`
and the scan of `Unmarshal`). -/
def parse (data : List Nat) : Except Error Value :=
  match parseValue (data.length + 1) 0 (skipSpace data) with
  | .error e => .error e
  | .ok (v, r) => if skipSpace r = [] then .ok v else .error .malformed

/-- Case folding of a key character as far as it can reach an ASCII letter: capitals
fold to lower case, U+017F to `s` and U+212A to `k`. -/
def foldRune (c : Char) : Char :=
  if 'A' ≤ c ∧ c ≤ 'Z' then Char.ofNat (c.toNat + 32)
  else if c.toNat = 0x17F then 's'
  else if c.toNat = 0x212A then 'k'
  else c

/-- Case-insensitive match of an object key with an ASCII lower-case field name. -/
def equalFold (key name : String) : Bool := key.toList.map foldRune == name.toList

/-- The kind of a JSON value as an `UnmarshalTypeError` names it. -/
def typeName : Value → String
  | .null => "null"
  | .bool _ => "bool"
  | .number => "number"
  | .string _ => "string"
  | .array _ => "array"
  | .object _ => "object"

/-- Hexadecimal digit byte of a value below 16, lower case. -/
def hexDigitByte (n : Nat) : Nat := if n < 10 then 0x30 + n else 0x57 + n

/-- The bytes of one character inside a JSON string literal: quote and backslash take a
backslash, control characters are written `\u00XX`, anything else is its UTF-8. -/
def quoteRune (c : Char) : List Nat :=
  if c.toNat = 0x22 then [0x5C, 0x22]
  else if c.toNat = 0x5C then [0x5C, 0x5C]
  else if c.toNat < 0x20 then
    [0x5C, 0x75, 0x30, 0x30, hexDigitByte (c.toNat / 16), hexDigitByte (c.toNat % 16)]
  else UTF8.EncodeRune c.toNat

/-- A JSON string literal of the text `s`, quotes included. -/
def quote (s : String) : List Nat := 0x22 :: s.toList.flatMap quoteRune ++ [0x22]

end JSON

/-! ## internal/config/config.go -/

namespace config

/-- PBKDF2 iteration count. -/
def PBKDF2_ITERATIONS : Nat := 310000

/-- AES-256 key size. -/
def DERIVED_KEY_SIZE : Nat := 32

/-- Size of the salt at the head of the bundle. -/
def SALT_SIZE : Nat := 16

/-- Standard AES-GCM nonce size. -/
def NONCE_SIZE_AES_GCM : Nat := 12

/-- The decrypted secrets; the JSON names of the fields are `service_account_json_string`
and `telegram_bot_token`. -/
structure DecryptedBundle where
  ServiceAccountJSONString : String
  TelegramBotToken : String
  deriving DecidableEq, Repr

/-- JSON name of the field `ServiceAccountJSONString`. -/
def jsonServiceAccount : String := "service_account_json_string"

/-- JSON name of the field `TelegramBotToken`. -/
def jsonTelegramBotToken : String := "telegram_bot_token"

/-- State of the struct decoder: the bundle filled so far and the first type error. -/
structure DecodeState where
  bundle : DecryptedBundle
  savedError : Option JSON.Error

/-- Stores a JSON value in a string field: a string is assigned, `null` leaves the field
as it is, any other kind records an `UnmarshalTypeError` unless one is recorded. -/
def storeField (st : DecodeState) (field : String) (v : JSON.Value)
    (set : DecryptedBundle → String → DecryptedBundle) : DecodeState :=
  match v with
  | .string s => ⟨set st.bundle s, st.savedError⟩
  | .null => st
  | v =>
    match st.savedError with
    | some e => ⟨st.bundle, some e⟩
    | none => ⟨st.bundle, some (.typeMismatch (JSON.typeName v) field)⟩

/-- Decodes one object member: the field is the one whose JSON name is the key, exactly
or else up to case; a key that names no field is skipped. -/
def storeMember (st : DecodeState) (m : String × JSON.Value) : DecodeState :=
  if m.1 = jsonServiceAccount then
    storeField st "ServiceAccountJSONString" m.2 (fun b s => ⟨s, b.TelegramBotToken⟩)
  else if m.1 = jsonTelegramBotToken then
    storeField st "TelegramBotToken" m.2 (fun b s => ⟨b.ServiceAccountJSONString, s⟩)
  else if JSON.equalFold m.1 jsonServiceAccount then
    storeField st "ServiceAccountJSONString" m.2 (fun b s => ⟨s, b.TelegramBotToken⟩)
  else if JSON.equalFold m.1 jsonTelegramBotToken then
    storeField st "TelegramBotToken" m.2 (fun b s => ⟨b.ServiceAccountJSONString, s⟩)
  else st

/-- Decoding of a JSON value into a zero `DecryptedBundle`: an object fills the fields
its members name and reports the first type error; `null` changes nothing; any other
kind of value is a type error. -/
def decodeBundle (v : JSON.Value) : Except JSON.Error DecryptedBundle :=
  match v with
  | .object members =>
    let st := members.foldl storeMember ⟨⟨"", ""⟩, none⟩
    match st.savedError with
    | some e => .error e
    | none => .ok st.bundle
  | .null => .ok ⟨"", ""⟩
  | v => .error (.typeMismatch (JSON.typeName v) "DecryptedBundle")

/-- Model of `json.Unmarshal(data, &bundle)` for a zero `bundle`. -/
def Unmarshal (data : List Nat) : Except JSON.Error DecryptedBundle :=
  match JSON.parse data with
  | .error e => .error e
  | .ok v => decodeBundle v

/-- The errors `DecryptBundle` returns, one constructor per `fmt.Errorf` of the function,
each carrying what its format string prints. -/
inductive BundleError where
  /-- "failed to hex decode encrypted bundle: %w". -/
  | hexDecode (e : Hex.Error)
  /-- "encrypted data too short, expected salt + nonce + ciphertext, got %d bytes". -/
  | tooShort (got : Nat)
  /-- "failed to create AES cipher: %w". -/
  | aesCipher (e : AES.KeySizeError)
  /-- "failed to create GCM: %w". -/
  | gcm
  /-- "incorrect nonce size: expected %d, got %d". -/
  | nonceSize (expected got : Nat)
  /-- "failed to decrypt bundle (check PIN or bundle content - PBKDF2 used): %w", around
  the one error `Open` returns. -/
  | decrypt
  /-- "failed to unmarshal decrypted bundle JSON: %w". -/
  | unmarshal (e : JSON.Error)
  deriving DecidableEq, Repr

/-- The body of `DecryptBundle`, with the key derivation function as a parameter `kdf`
(called as `pbkdf2.Key` is: password, salt, iterations, key length). -/
def DecryptBundleWith (kdf : List Nat → List Nat → Nat → Nat → List Nat)
    (hexEncodedEncryptedBundle pin : String) : Except BundleError DecryptedBundle :=
  match Hex.DecodeString hexEncodedEncryptedBundle with
  | .error err => .error (.hexDecode err)
  | .ok encryptedBundleBytes =>
    if encryptedBundleBytes.length < SALT_SIZE + NONCE_SIZE_AES_GCM then
      .error (.tooShort encryptedBundleBytes.length)
    else
      let salt := sliceBytes encryptedBundleBytes 0 SALT_SIZE
      let nonce := sliceBytes encryptedBundleBytes SALT_SIZE (SALT_SIZE + NONCE_SIZE_AES_GCM)
      let ciphertext := encryptedBundleBytes.drop (SALT_SIZE + NONCE_SIZE_AES_GCM)
      let derivedKey := kdf (stringBytes pin) salt PBKDF2_ITERATIONS DERIVED_KEY_SIZE
      match AES.NewCipher derivedKey with
      | .error err => .error (.aesCipher err)
      | .ok block =>
        match GCM.NewGCM block with
        | none => .error .gcm
        | some aesgcm =>
          if nonce.length ≠ GCM.NonceSize aesgcm then
            .error (.nonceSize (GCM.NonceSize aesgcm) nonce.length)
          else
            match GCM.Open aesgcm nonce ciphertext [] with
            | none => .error .decrypt
            | some decryptedData =>
              match Unmarshal decryptedData with
              | .error err => .error (.unmarshal err)
              | .ok bundle => .ok bundle

/-- Model of `DecryptBundle(hexEncodedEncryptedBundle, pin)`: the decrypted bundle, or the
error returned with a nil bundle. The key is derived with `pbkdf2.Key` over SHA-256. -/
def DecryptBundle (hexEncodedEncryptedBundle pin : String) :
    Except BundleError DecryptedBundle :=
  DecryptBundleWith PBKDF2.Key hexEncodedEncryptedBundle pin

/-- Outcome of the call of `Open` inside `DecryptBundleWith`, when the call is reached:
`none` if the function returns before it, `some none` if `Open` fails, `some (some p)` if
it returns the plaintext `p`. -/
def openStepWith (kdf : List Nat → List Nat → Nat → Nat → List Nat)
    (hexEncodedEncryptedBundle pin : String) : Option (Option (List Nat)) :=
  match Hex.DecodeString hexEncodedEncryptedBundle with
  | .error _ => none
  | .ok encryptedBundleBytes =>
    if encryptedBundleBytes.length < SALT_SIZE + NONCE_SIZE_AES_GCM then none
    else
      let salt := sliceBytes encryptedBundleBytes 0 SALT_SIZE
      let nonce := sliceBytes encryptedBundleBytes SALT_SIZE (SALT_SIZE + NONCE_SIZE_AES_GCM)
      let ciphertext := encryptedBundleBytes.drop (SALT_SIZE + NONCE_SIZE_AES_GCM)
      let derivedKey := kdf (stringBytes pin) salt PBKDF2_ITERATIONS DERIVED_KEY_SIZE
      match AES.NewCipher derivedKey with
      | .error _ => none
      | .ok block =>
        match GCM.NewGCM block with
        | none => none
        | some aesgcm =>
          if nonce.length ≠ GCM.NonceSize aesgcm then none
          else some (GCM.Open aesgcm nonce ciphertext [])

/-- Outcome of the call of `Open` inside `DecryptBundle`, when the call is reached. -/
def openStep (hexEncodedEncryptedBundle pin : String) : Option (Option (List Nat)) :=
  openStepWith PBKDF2.Key hexEncodedEncryptedBundle pin

/-! ### The decryption pipeline as the specification words it -/

/-- PBKDF2-HMAC-SHA256 of the specification: `deriveKey(pin, salt)`. -/
def deriveKey (pin : String) (salt : List Nat) : List Nat :=
  PBKDF2.Key (stringBytes pin) salt 310000 32

/-- AES-256 in Galois/Counter Mode under a 32-byte key: 14 rounds, 12-byte nonce, 16-byte
tag. -/
def aes256gcm (key : List Nat) : GCM.AEAD :=
  ⟨⟨16, AES.encryptBlock (AES.expandKey key) 14⟩, 12, 16⟩

/-- Reference pipeline of the specification on the decoded bytes `b`: split at 16 and
28, derive the key, open without associated data, parse the plaintext; an error when
opening or parsing fails. -/
def referenceDecrypt (b : List Nat) (pin : String) : Except BundleError DecryptedBundle :=
  let salt := sliceBytes b 0 16
  let nonce := sliceBytes b 16 28
  let ciphertext := sliceBytes b 28 b.length
  match GCM.Open (aes256gcm (deriveKey pin salt)) nonce ciphertext [] with
  | none => .error .decrypt
  | some plaintext =>
    match Unmarshal plaintext with
    | .error e => .error (.unmarshal e)
    | .ok record => .ok record

/-- Modelled from the spec: the JSON text of a bundle record, which the repository never
produces (it only decrypts). An object with the two fields under their JSON names, in
the order of the struct, strings quoted by `JSON.quote`. -/
def marshalBundle (record : DecryptedBundle) : List Nat :=
  [0x7B, 0x22] ++ stringBytes jsonServiceAccount ++ [0x22, 0x3A]
    ++ JSON.quote record.ServiceAccountJSONString
    ++ [0x2C, 0x22] ++ stringBytes jsonTelegramBotToken ++ [0x22, 0x3A]
    ++ JSON.quote record.TelegramBotToken ++ [0x7D]

/-- Modelled from the spec: the framing of the encryption direction, absent from the
repository. The hex encoding of `salt || nonce || Seal(key, nonce, plaintext)` with the
key derived from the PIN and the salt and no associated data; `none` where `Seal`
refuses its input. -/
def sealBundle (plaintext : List Nat) (pin : String) (salt nonce : List Nat) :
    Option String :=
  match GCM.Seal (aes256gcm (deriveKey pin salt)) nonce plaintext [] with
  | none => none
  | some ct => some (Hex.EncodeToString (salt ++ nonce ++ ct))

/-- Modelled from the spec: `encrypt(record, pin)` under a given salt and nonce, the sealed
JSON text of the record. -/
def encryptBundle (record : DecryptedBundle) (pin : String) (salt nonce : List Nat) :
    Option String :=
  sealBundle (marshalBundle record) pin salt nonce

/-- What `DecryptBundleWith` does with the result `r` of `Open`: the decrypt error if
`Open` failed, otherwise the outcome of unmarshalling the plaintext. -/
def afterOpen (r : Option (List Nat)) : Except BundleError DecryptedBundle :=
  match r with
  | none => .error .decrypt
  | some p =>
    match Unmarshal p with
    | .error e => .error (.unmarshal e)
    | .ok bundle => .ok bundle

/-- The bundle sealing the JSON text `{}`, an object with neither field, under the PIN
"1234", a zero salt and a zero nonce. -/
def emptyObjectBundle : String :=
  (sealBundle [0x7B, 0x7D] "1234" (List.replicate 16 0) (List.replicate 12 0)).getD ""

/-- A member value the decoder stores without a type error: a string or `null`. -/
def storable (v : JSON.Value) : Prop := (∃ s, v = .string s) ∨ v = .null

/-- No member of the object is decoded into the field of JSON name `name`: no key is the
name, exactly or up to case. -/
def fieldAbsent (name : String) (ms : List (String × JSON.Value)) : Prop :=
  ∀ m ∈ ms, m.1 ≠ name ∧ JSON.equalFold m.1 name = false

end config

/-- Every element of a list is a byte. -/
def allBytes (l : List Nat) : Prop := ∀ x ∈ l, x < 256

/-! ## regexp

Go's `regexp` returns the leftmost match and, among the matches that start there, the one
a backtracking search finds first. The matcher below is that search, written with a
continuation for what follows the expression being matched. -/

namespace Regexp

/-- The operators the two patterns of `gdrive.go` are built from. The only repeated
operand in them is a character class, so repetition is over a class. -/
inductive Re where
  /-- The empty expression. -/
  | empty
  /-- One literal character. -/
  | lit (c : Char)
  /-- Concatenation. -/
  | seq (a b : Re)
  /-- Alternation `a|b`, preferring `a`. -/
  | alt (a b : Re)
  /-- Greedy option `a?`. -/
  | opt (a : Re)
  /-- Greedy repetition `[class]{min,}`. -/
  | rep (min : Nat) (cls : Char → Bool)
  /-- ASCII word boundary `\b`. -/
  | wordBoundary
  /-- Beginning of text `^`. -/
  | beginText
  /-- End of text `$`. -/
  | endText
  /-- The capturing group `( )` number 1. -/
  | cap (a : Re)

/-- A position of the matcher in the text: the characters before it, nearest first, the
characters from it on, and the span of group 1 if it has matched. -/
structure MState where
  pre : List Char
  rest : List Char
  cap : Option (Nat × Nat)

/-- A word character for `\b`: an ASCII letter, digit or underscore. -/
def isWordChar (c : Char) : Bool :=
  ('A' ≤ c && c ≤ 'Z') || ('a' ≤ c && c ≤ 'z') || ('0' ≤ c && c ≤ '9') || c == '_'

/-- The character next to a position is a word character; the ends of the text are not. -/
def isWordAt : Option Char → Bool
  | some c => isWordChar c
  | none => false

/-- The position is at a word boundary: a word character on exactly one side. -/
def atWordBoundary (st : MState) : Bool :=
  isWordAt st.pre.head? != isWordAt st.rest.head?

/-- Greedy `[cls]{min,}` from the position `(pre, rest)`: as many characters of the class as
possible first, giving one back at a time while the continuation `k` fails. -/
def matchRep (cls : Char → Bool) (k : MState → Option MState) :
    Nat → List Char → List Char → Option (Nat × Nat) → Option MState
  | min, pre, [], cap => if min = 0 then k ⟨pre, [], cap⟩ else none
  | min, pre, x :: xs, cap =>
      if cls x then
        match matchRep cls k (min - 1) (x :: pre) xs cap with
        | some r => some r
        | none => if min = 0 then k ⟨pre, x :: xs, cap⟩ else none
      else if min = 0 then k ⟨pre, x :: xs, cap⟩ else none

/-- Backtracking match of `re` at the position `st`, followed by the continuation `k`:
the first way of matching `re`, in the order of preference, after which `k` succeeds. -/
def matchRe : Re → (MState → Option MState) → MState → Option MState
  | .empty, k, st => k st
  | .lit c, k, st =>
      match st.rest with
      | x :: xs => if x = c then k ⟨x :: st.pre, xs, st.cap⟩ else none
      | [] => none
  | .seq a b, k, st => matchRe a (fun mid => matchRe b k mid) st
  | .alt a b, k, st =>
      match matchRe a k st with
      | some r => some r
      | none => matchRe b k st
  | .opt a, k, st =>
      match matchRe a k st with
      | some r => some r
      | none => k st
  | .rep min cls, k, st => matchRep cls k min st.pre st.rest st.cap
  | .wordBoundary, k, st => if atWordBoundary st then k st else none
  | .beginText, k, st => if st.pre = [] then k st else none
  | .endText, k, st => if st.rest = [] then k st else none
  | .cap a, k, st =>
      matchRe a (fun fin => k ⟨fin.pre, fin.rest, some (st.pre.length, fin.pre.length)⟩) st

/-- Unanchored search: the first start position, left to right, at which `re` matches,
with the final state of that match. -/
def searchFrom (re : Re) : List Char → List Char → Option (Nat × MState)
  | pre, [] => (matchRe re some ⟨pre, [], none⟩).map (fun r => (pre.length, r))
  | pre, x :: xs =>
      match matchRe re some ⟨pre, x :: xs, none⟩ with
      | some r => some (pre.length, r)
      | none => searchFrom re (x :: pre) xs

/-- The expression matching the characters of `s` in a row. -/
def Re.str (s : String) : Re := s.toList.foldr (fun c r => Re.seq (Re.lit c) r) Re.empty

/-- The Go slice expression `s[lo:hi]` on a string, in characters. -/
def sliceString (s : String) (lo hi : Nat) : String := String.mk ((s.toList.drop lo).take (hi - lo))

/-- Model of `(*Regexp).FindStringSubmatch`: nil (the empty list) without a match;
otherwise the text of the leftmost match and the text of group 1, empty if the group did
not take part. -/
def FindStringSubmatch (re : Re) (s : String) : List String :=
  match searchFrom re [] s.toList with
  | none => []
  | some (start, fin) =>
      [sliceString s start fin.pre.length,
       match fin.cap with
       | some (lo, hi) => sliceString s lo hi
       | none => ""]

/-- Model of `(*Regexp).MatchString`. -/
def MatchString (re : Re) (s : String) : Bool := (searchFrom re [] s.toList).isSome

/-- Declarative reading of an expression: `Sem re st fin` holds when `re` can match from
the position `st` and end at the position `fin`. -/
def Sem : Re → MState → MState → Prop
  | .empty, st, fin => fin = st
  | .lit c, st, fin => ∃ xs, st.rest = c :: xs ∧ fin = ⟨c :: st.pre, xs, st.cap⟩
  | .seq a b, st, fin => ∃ mid, Sem a st mid ∧ Sem b mid fin
  | .alt a b, st, fin => Sem a st fin ∨ Sem b st fin
  | .opt a, st, fin => Sem a st fin ∨ fin = st
  | .rep min cls, st, fin =>
      ∃ w xs, st.rest = w ++ xs ∧ min ≤ w.length ∧ (∀ c ∈ w, cls c = true)
        ∧ fin = ⟨w.reverse ++ st.pre, xs, st.cap⟩
  | .wordBoundary, st, fin => atWordBoundary st = true ∧ fin = st
  | .beginText, st, fin => st.pre = [] ∧ fin = st
  | .endText, st, fin => st.rest = [] ∧ fin = st
  | .cap a, st, fin =>
      ∃ e, Sem a st e ∧ fin = ⟨e.pre, e.rest, some (st.pre.length, e.pre.length)⟩

end Regexp

/-! ## internal/gdrive/gdrive.go -/

namespace gdrive

open Regexp

/-- The class `[a-zA-Z0-9_-]`. -/
def idClass (c : Char) : Bool :=
  ('a' ≤ c && c ≤ 'z') || ('A' ≤ c && c ≤ 'Z') || ('0' ≤ c && c ≤ '9') || c == '_' || c == '-'

/-- The first group of `driveIdRegex`, what may stand before the identifier:
`(?:(?:https?:\/\/drive\.google\.com\/(?:file\/d\/|open\?id=|drive\/folders\/|folderview\?id=))|(?:\b))`. -/
def linkPrefix : Re :=
  .alt
    (.seq (.str "http") (.seq (.opt (.lit 's')) (.seq (.str "://drive.google.com/")
      (.alt (.str "file/d/") (.alt (.str "open?id=")
        (.alt (.str "drive/folders/") (.str "folderview?id=")))))))
    .wordBoundary

/-- The last group of `driveIdRegex`, what must follow the identifier: `(?:\b|\?|$)`. -/
def idEnd : Re := .alt .wordBoundary (.alt (.lit '?') .endText)

/-- The pattern `driveIdRegex`:
`(?:(?:https?:\/\/drive\.google\.com\/(?:file\/d\/|open\?id=|drive\/folders\/|folderview\?id=))|(?:\b))([a-zA-Z0-9_-]{25,})(?:\b|\?|$)`. -/
def driveIdRegex : Re := .seq linkPrefix (.seq (.cap (.rep 25 idClass)) idEnd)

/-- The pattern `rawIdRegex`: `^[a-zA-Z0-9_-]{25,}$`. -/
def rawIdRegex : Re := .seq .beginText (.seq (.rep 25 idClass) .endText)

/-- The message of the error `ExtractFileID` returns, the input after the format's text. -/
def errorMessage (idOrLink : String) : String :=
  "invalid or unextractable Google Drive ID/link format: " ++ idOrLink

/-- Model of `ExtractFileID(idOrLink)`: the pair of the identifier and the error, the
error being `none` for nil and otherwise the message. -/
def ExtractFileID (idOrLink : String) : String × Option String :=
  let submatches := FindStringSubmatch driveIdRegex idOrLink
  if submatches.length > 1 ∧ submatches.getD 1 "" ≠ "" then
    (submatches.getD 1 "", none)
  else if MatchString rawIdRegex idOrLink then
    (idOrLink, none)
  else
    ("", some (errorMessage idOrLink))

/-- A run of `n` consecutive characters of the identifier alphabet somewhere in `s`. -/
def hasIdRun (n : Nat) (s : String) : Prop :=
  ∃ w : List Char, w <:+: s.toList ∧ w.length = n ∧ ∀ c ∈ w, idClass c = true

/-- A canonical identifier: 25 or more characters, all of the identifier alphabet. -/
def isCanonicalId (s : String) : Prop :=
  25 ≤ s.length ∧ ∀ c ∈ s.toList, idClass c = true

end gdrive

/-! ## internal/utils/utils.go -/

namespace utils

/-- The constant `unit` of `HumanReadableSize`. -/
def unit : Nat := 1024

/-- The value an `int64` holds after an arithmetic result `x`: `x` wrapped to 64 bits. -/
def wrapInt64 (x : Int) : Int := (x + 2 ^ 63) % 2 ^ 64 - 2 ^ 63

/-- The loop `for n := bytes / unit; n >= unit; n /= unit { div *= unit; exp++ }` from the
state `(n, div, exp)`: the values of `div` and `exp` when it ends. `n` is a `uint64`, `div`
an `int64` whose product wraps. -/
def sizeLoop (n : Nat) (div : Int) (exp : Nat) : Int × Nat :=
  if h : unit ≤ n then sizeLoop (n / unit) (wrapInt64 (div * unit)) (exp + 1) else (div, exp)
termination_by n
decreasing_by exact Nat.div_lt_self (by unfold unit at h; omega) (by decide)

/-- The string indexed in the last line of `HumanReadableSize`. -/
def unitLetters : String := "KMGTPE"

/-- Model of `HumanReadableSize(bytes)` for a `uint64` argument. `none` is the run-time
panic of an index out of range. The rendering `%.1f` of the floating-point quotient
`float64(bytes)/float64(div)` is the parameter `sprintfF1`, applied to `bytes` and `div`. -/
def HumanReadableSize (sprintfF1 : Nat → Int → String) (bytes : Nat) : Option String :=
  if bytes < unit then some (toString bytes ++ " B")
  else
    let de := sizeLoop (bytes / unit) (unit : Int) 0
    match unitLetters.toList.get? de.2 with
    | none => none
    | some letter => some (sprintfF1 bytes de.1 ++ " " ++ String.singleton letter ++ "iB")

end utils

/-! ## internal/commands: delete.go and upload.go -/

namespace drive

/-- The fields of `drive.File` that `HandleUpload` reads. -/
structure File where
  Id : String
  Name : String
  MimeType : String
  Size : Int
  CreatedTime : String
  WebViewLink : String
  Parents : List String

end drive

namespace config

/-- The constant `DEFAULT_TEST_FOLDER_ID`. -/
def DEFAULT_TEST_FOLDER_ID : String := "1y1OzjZ5zrzX8rCNza6evRz68UHlSYuIW"

/-- The struct `AppConfig`. -/
structure AppConfig where
  ServiceAccountJSON : String
  TelegramBotToken : String
  TelegramChatID : String
  DefaultFolderID : String

end config

namespace commands

/-- A call that leaves the program: to the cloud layer of `gdrive.go`, to the Drive API, or
to the chat notification, with the arguments it is given. -/
inductive Call where
  /-- The call `gdrive.UploadFile(driveSvc, filePath, targetFolderID)`. -/
  | UploadFile (filePath targetFolderID : String)
  /-- The call `gdrive.DeleteDriveFile(driveSvc, fileID)`. -/
  | DeleteDriveFile (fileID : String)
  /-- The call `driveSvc.Files.Get(fileID).Fields("name").Do()`. -/
  | FilesGet (fileID : String)
  /-- The call `telegram.SendNotification` with its nine arguments in order. -/
  | SendNotification (botToken chatID fileName folderName fileSize mimeType createdTime
      gdriveLink ddlLink : String)
  deriving DecidableEq, Repr

/-- How a handler ends: it returns its error (`none` for nil), or it panics. -/
inductive Outcome where
  | returned (err : Option String)
  | panicked
  deriving DecidableEq, Repr

/-- What the outside answers and what the libraries of time and floating point compute,
as far as the handlers use them. `Time` is the type of `time.Time` values. -/
structure World (Time : Type) where
  /-- Result of `gdrive.UploadFile`: the created file or the error message. -/
  uploadFile : String → String → Except String drive.File
  /-- Error of `svc.Files.Delete(fileID).Do()`, `none` for nil. -/
  filesDelete : String → Option String
  /-- Name of the file fetched by `Files.Get`, or the error message. -/
  filesGetName : String → Except String String
  /-- Result of `time.Parse(time.RFC3339, s)`, `none` on error. -/
  parseRFC3339 : String → Option Time
  /-- The method `IsZero`. -/
  isZero : Time → Bool
  /-- The method `Format` with the layout "02 Jan 06 15:04 MST". -/
  formatShort : Time → String
  /-- Rendering `%.1f` of `float64(bytes)/float64(div)`. -/
  sprintfF1 : Nat → Int → String

/-- Model of `gdrive.DeleteDriveFile(svc, fileID)`: the error it returns. -/
def DeleteDriveFile {Time : Type} (w : World Time) (fileID : String) : Option String :=
  match w.filesDelete fileID with
  | some err => some ("failed to delete file '" ++ fileID ++ "' from Google Drive: " ++ err)
  | none => none

/-- Model of `HandleDelete(driveSvc, _, fileIDOrLink)`: the calls made, in order, and the
outcome. Console output is left out. -/
def HandleDelete {Time : Type} (w : World Time) (fileIDOrLink : String) :
    List Call × Outcome :=
  match gdrive.ExtractFileID fileIDOrLink with
  | (_, some err) => ([], .returned (some ("invalid file ID or link: " ++ err)))
  | (actualFileID, none) =>
    match DeleteDriveFile w actualFileID with
    | some err =>
      ([.DeleteDriveFile actualFileID],
        .returned (some ("delete failed for ID '" ++ actualFileID ++ "': " ++ err)))
    | none => ([.DeleteDriveFile actualFileID], .returned none)

/-- The conversion `uint64(x)` of an `int64`. -/
def uint64 (x : Int) : Nat := (x % 2 ^ 64).toNat

/-- Model of `HandleUpload(driveSvc, appCfg, filePath, folderID)`: the calls made, in
order, and the outcome. Console output is left out. The variable `createdTime` is `none`
while it holds the zero value it is declared with, which a failed parse leaves in it. -/
def HandleUpload {Time : Type} (w : World Time) (appCfg : config.AppConfig)
    (filePath folderID : String) : List Call × Outcome :=
  let folderID := if folderID = "" then appCfg.DefaultFolderID else folderID
  match w.uploadFile filePath folderID with
  | .error err => ([.UploadFile filePath folderID], .returned (some ("upload failed: " ++ err)))
  | .ok uploadedFile =>
    let gdriveLink :=
      if uploadedFile.WebViewLink = "" then
        "https://drive.google.com/file/d/" ++ uploadedFile.Id ++ "/view?usp=sharing"
      else uploadedFile.WebViewLink
    let ddlLink := "https://drive.google.com/uc?export=download&id=" ++ uploadedFile.Id
    let createdTime : Option Time :=
      if uploadedFile.CreatedTime ≠ "" then w.parseRFC3339 uploadedFile.CreatedTime else none
    match utils.HumanReadableSize w.sprintfF1 (uint64 uploadedFile.Size) with
    | none => ([.UploadFile filePath folderID], .panicked)
    | some fileSizeStr =>
      let parent : List Call × String :=
        match uploadedFile.Parents with
        | parentFolderID :: _ =>
          match w.filesGetName parentFolderID with
          | .ok name => ([.FilesGet parentFolderID], name)
          | .error _ => ([.FilesGet parentFolderID], "N/A")
        | [] => ([], "N/A")
      let notify : List Call :=
        if appCfg.TelegramBotToken ≠ "" ∧ appCfg.TelegramChatID ≠ "" then
          let createdTimeStr :=
            match createdTime with
            | some t => if w.isZero t then "N/A" else w.formatShort t
            | none => "N/A"
          [.SendNotification appCfg.TelegramBotToken appCfg.TelegramChatID uploadedFile.Name
            parent.2 fileSizeStr uploadedFile.MimeType createdTimeStr gdriveLink ddlLink]
        else []
      (.UploadFile filePath folderID :: parent.1 ++ notify, .returned none)

/-- A world in which every remote call fails and there are no times. -/
def offline : World Unit where
  uploadFile := fun _ _ => .error "offline"
  filesDelete := fun _ => some "offline"
  filesGetName := fun _ => .error "offline"
  parseRFC3339 := fun _ => none
  isZero := fun _ => true
  formatShort := fun _ => ""
  sprintfF1 := fun _ _ => ""

/-- The configuration of the examples: no credentials, no notification, the default
folder of `main.go`. -/
def exampleConfig : config.AppConfig := ⟨"", "", "", config.DEFAULT_TEST_FOLDER_ID⟩

end commands
/-! ## Theorems: key derivation, framing and the reference pipeline -/

theorem SHA256.length_Sum256 (msg : List Nat) : (SHA256.Sum256 msg).length = 32 := by
  simp [SHA256.Sum256, SHA256.Size]

theorem HMAC.length_Sum (key msg : List Nat) : (HMAC.Sum key msg).length = 32 := by
  simp [HMAC.Sum, SHA256.length_Sum256]

theorem PBKDF2.length_xorInto (t u : List Nat) : (PBKDF2.xorInto t u).length = t.length := by
  induction t generalizing u with
  | nil => simp [PBKDF2.xorInto]
  | cons x xs ih => cases u <;> simp [PBKDF2.xorInto, ih]

theorem PBKDF2.length_iterate (password : List Nat) (n : Nat) (u t : List Nat) :
    (PBKDF2.iterate password n u t).length = t.length := by
  induction n generalizing u t with
  | zero => simp [PBKDF2.iterate]
  | succ n ih => simp [PBKDF2.iterate, ih, PBKDF2.length_xorInto]

theorem PBKDF2.length_block (password salt : List Nat) (iter i : Nat) :
    (PBKDF2.block password salt iter i).length = 32 := by
  simp [PBKDF2.block, PBKDF2.length_iterate, HMAC.length_Sum]

theorem PBKDF2.length_Key_32 (password salt : List Nat) (iter : Nat) :
    (PBKDF2.Key password salt iter 32).length = 32 := by
  have h : (32 + SHA256.Size - 1) / SHA256.Size = 1 := by decide
  simp only [PBKDF2.Key, h]
  simp [List.range_succ, PBKDF2.length_block]

open config

theorem AES.NewCipher_of_length_32 (key : List Nat) (h : key.length = 32) :
    AES.NewCipher key = .ok ⟨16, AES.encryptBlock (AES.expandKey key) 14⟩ := by
  simp [AES.NewCipher, h, AES.BlockSize]

theorem GCM.NewGCM_of_blockSize_16 (enc : List Nat → List Nat) :
    GCM.NewGCM ⟨16, enc⟩ = some ⟨⟨16, enc⟩, 12, 16⟩ := by
  simp [GCM.NewGCM, GCM.gcmBlockSize, GCM.gcmStandardNonceSize, GCM.gcmTagSize]

theorem sliceBytes_salt_length (b : List Nat) (h : 28 ≤ b.length) :
    (sliceBytes b 0 16).length = 16 := by
  simp [sliceBytes]; omega

theorem sliceBytes_nonce_length (b : List Nat) (h : 28 ≤ b.length) :
    (sliceBytes b 16 28).length = 12 := by
  simp [sliceBytes]; omega

theorem sliceBytes_tail (b : List Nat) : sliceBytes b 28 b.length = b.drop 28 := by
  simp [sliceBytes]

theorem sliceBytes_append (b : List Nat) :
    sliceBytes b 0 16 ++ sliceBytes b 16 28 ++ sliceBytes b 28 b.length = b := by
  simp only [sliceBytes_tail]
  simp only [sliceBytes, List.drop_zero, Nat.sub_zero]
  have h1 : (List.drop 16 b).take (28 - 16) ++ List.drop 28 b = List.drop 16 b := by
    have : List.drop 28 b = List.drop 12 (List.drop 16 b) := by simp
    rw [this]; exact List.take_append_drop 12 _
  rw [List.append_assoc, h1, List.take_append_drop]

theorem config.DecryptBundleWith_short (kdf : List Nat → List Nat → Nat → Nat → List Nat)
    (hex pin : String) (b : List Nat)
    (hdec : Hex.DecodeString hex = .ok b) (hlen : b.length < 28) :
    DecryptBundleWith kdf hex pin = .error (.tooShort b.length) := by
  unfold DecryptBundleWith
  rw [hdec]
  have e1 : SALT_SIZE = 16 := rfl
  have e2 : NONCE_SIZE_AES_GCM = 12 := rfl
  simp only [e1, e2]
  rw [if_pos (by omega)]

theorem config.openStepWith_of_decode (kdf : List Nat → List Nat → Nat → Nat → List Nat)
    (hex pin : String) (b : List Nat)
    (hdec : Hex.DecodeString hex = .ok b) (hlen : 28 ≤ b.length)
    (hkey : (kdf (stringBytes pin) (sliceBytes b 0 16) PBKDF2_ITERATIONS DERIVED_KEY_SIZE).length
      = 32) :
    openStepWith kdf hex pin = some (GCM.Open
      (aes256gcm (kdf (stringBytes pin) (sliceBytes b 0 16) PBKDF2_ITERATIONS DERIVED_KEY_SIZE))
      (sliceBytes b 16 28) (sliceBytes b 28 b.length) []) := by
  have hn := sliceBytes_nonce_length b hlen
  unfold openStepWith
  rw [hdec, sliceBytes_tail]
  have e1 : SALT_SIZE = 16 := rfl
  have e2 : NONCE_SIZE_AES_GCM = 12 := rfl
  simp only [e1, e2]
  rw [if_neg (by omega)]
  simp only [AES.NewCipher_of_length_32 _ hkey, GCM.NewGCM_of_blockSize_16, GCM.NonceSize]
  rw [if_neg (by simp [hn])]
  rfl

theorem config.DecryptBundleWith_eq_afterOpen
    (kdf : List Nat → List Nat → Nat → Nat → List Nat) (hex pin : String)
    (r : Option (List Nat)) (h : openStepWith kdf hex pin = some r) :
    DecryptBundleWith kdf hex pin = afterOpen r := by
  cases hdec : Hex.DecodeString hex with
  | error e => simp [openStepWith, hdec] at h
  | ok b =>
    by_cases hlen : b.length < SALT_SIZE + NONCE_SIZE_AES_GCM
    · simp [openStepWith, hdec, hlen] at h
    · cases hk : AES.NewCipher (kdf (stringBytes pin) (sliceBytes b 0 SALT_SIZE)
          PBKDF2_ITERATIONS DERIVED_KEY_SIZE) with
      | error e => simp [openStepWith, hdec, hlen, hk] at h
      | ok blk =>
        cases hg : GCM.NewGCM blk with
        | none => simp [openStepWith, hdec, hlen, hk, hg] at h
        | some g =>
          by_cases hn : (sliceBytes b SALT_SIZE (SALT_SIZE + NONCE_SIZE_AES_GCM)).length
              = GCM.NonceSize g
          · simp only [openStepWith, hdec, hlen, hk, hg, hn, if_false, ne_eq,
              not_true_eq_false, Option.some.injEq] at h
            simp only [DecryptBundleWith, hdec, hlen, hk, hg, hn, if_false, ne_eq,
              not_true_eq_false, h]
            rfl
          · simp [openStepWith, hdec, hlen, hk, hg, hn] at h

open config

theorem config.length_deriveKey (pin : String) (salt : List Nat) :
    (deriveKey pin salt).length = 32 := PBKDF2.length_Key_32 _ _ _

theorem config.openStep_of_decode (hex pin : String) (b : List Nat)
    (hdec : Hex.DecodeString hex = .ok b) (hlen : 28 ≤ b.length) :
    openStep hex pin = some (GCM.Open (aes256gcm (deriveKey pin (sliceBytes b 0 16)))
      (sliceBytes b 16 28) (sliceBytes b 28 b.length) []) :=
  openStepWith_of_decode PBKDF2.Key hex pin b hdec hlen (PBKDF2.length_Key_32 _ _ _)

theorem config.referenceDecrypt_eq_afterOpen (b : List Nat) (pin : String) :
    referenceDecrypt b pin = afterOpen (GCM.Open (aes256gcm (deriveKey pin (sliceBytes b 0 16)))
      (sliceBytes b 16 28) (sliceBytes b 28 b.length) []) := rfl

theorem config.DecryptBundle_eq_afterOpen (hex pin : String) (r : Option (List Nat))
    (h : openStep hex pin = some r) : DecryptBundle hex pin = afterOpen r :=
  DecryptBundleWith_eq_afterOpen PBKDF2.Key hex pin r h

/-- Claim C1. For every PIN and every hex string that decodes to bytes `b` of length at
least 28, `DecryptBundle` is the reference pipeline of the specification on `b`: salt
`b[0:16]`, nonce `b[16:28]` and ciphertext with tag `b[28:]`, three slices that concatenate
back to `b`; key PBKDF2-HMAC-SHA256 of the PIN and salt with 310000 iterations and 32
bytes; AES-256-GCM `Open` without associated data; JSON parse of the plaintext. It returns
an error exactly when `Open` fails or the parse fails. -/
theorem config.DecryptBundle_eq_referenceDecrypt (hex pin : String) (b : List Nat)
    (hdec : Hex.DecodeString hex = .ok b) (hlen : 28 ≤ b.length) :
    DecryptBundle hex pin = referenceDecrypt b pin
    ∧ sliceBytes b 0 16 ++ sliceBytes b 16 28 ++ sliceBytes b 28 b.length = b
    ∧ (sliceBytes b 0 16).length = 16
    ∧ (sliceBytes b 16 28).length = 12
    ∧ ((∃ e, DecryptBundle hex pin = .error e) ↔
        (GCM.Open (aes256gcm (deriveKey pin (sliceBytes b 0 16))) (sliceBytes b 16 28)
            (sliceBytes b 28 b.length) [] = none
          ∨ ∃ p e, GCM.Open (aes256gcm (deriveKey pin (sliceBytes b 0 16))) (sliceBytes b 16 28)
              (sliceBytes b 28 b.length) [] = some p ∧ Unmarshal p = .error e)) := by
  have hD := DecryptBundle_eq_afterOpen hex pin _ (openStep_of_decode hex pin b hdec hlen)
  refine ⟨hD.trans (referenceDecrypt_eq_afterOpen b pin).symm, sliceBytes_append b,
    sliceBytes_salt_length b hlen, sliceBytes_nonce_length b hlen, ?_⟩
  rw [hD]
  generalize GCM.Open (aes256gcm (deriveKey pin (sliceBytes b 0 16))) (sliceBytes b 16 28)
            (sliceBytes b 28 b.length) [] = r
  cases r with
  | none => simp [afterOpen]
  | some p =>
    cases hu : Unmarshal p with
    | error e => simp [afterOpen, hu]
    | ok v => simp [afterOpen, hu]

theorem config.DecryptBundle_eq_referenceDecrypt_witness :
    Hex.DecodeString "00000000000000000000000000000000000000000000000000000000ff" = .ok (List.replicate 28 0 ++ [255])
    ∧ DecryptBundle "00000000000000000000000000000000000000000000000000000000ff" "1234"
      = referenceDecrypt (List.replicate 28 0 ++ [255]) "1234" :=
  ⟨by decide, (config.DecryptBundle_eq_referenceDecrypt _ "1234" _ (by decide) (by decide)).1⟩

theorem allBytes_nil : allBytes [] := by simp [allBytes]

theorem allBytes_cons (x : Nat) (l : List Nat) : allBytes (x :: l) ↔ x < 256 ∧ allBytes l := by
  simp [allBytes]

theorem allBytes_append (l1 l2 : List Nat) : allBytes (l1 ++ l2) ↔ allBytes l1 ∧ allBytes l2 := by
  simp only [allBytes, List.mem_append]
  constructor
  · intro h; exact ⟨fun x hx => h x (Or.inl hx), fun x hx => h x (Or.inr hx)⟩
  · rintro ⟨h1, h2⟩ x (hx | hx)
    · exact h1 x hx
    · exact h2 x hx

theorem allBytes_natToBytesBE (len n : Nat) : allBytes (natToBytesBE len n) := by
  intro x hx
  simp only [natToBytesBE, List.mem_map] at hx
  obtain ⟨i, _, rfl⟩ := hx
  exact Nat.mod_lt _ (by decide)

theorem length_natToBytesBE (len n : Nat) : (natToBytesBE len n).length = len := by
  simp [natToBytesBE]

theorem allBytes_take (n : Nat) (l : List Nat) (h : allBytes l) : allBytes (l.take n) :=
  fun x hx => h x (List.mem_of_mem_take hx)

theorem allBytes_zipWith_mod (l1 l2 : List Nat) :
    allBytes (List.zipWith (fun x y => (x ^^^ y) % 256) l1 l2) := by
  induction l1 generalizing l2 with
  | nil => simp [allBytes]
  | cons a as ih =>
    cases l2 with
    | nil => simp [allBytes]
    | cons b bs =>
      rw [List.zipWith_cons_cons, allBytes_cons]
      exact ⟨Nat.mod_lt _ (by decide), ih bs⟩

theorem getD_lt_of_allBytes (l : List Nat) (i : Nat) (h : allBytes l) : l.getD i 0 < 256 := by
  rw [List.getD_eq_getElem?_getD]
  cases hi : l[i]? with
  | none => simp
  | some x => simpa using h x (List.getElem?_mem hi)

theorem AES.allBytes_encryptBlock (w : List (List Nat)) (rounds : Nat) (src : List Nat) :
    allBytes (AES.encryptBlock w rounds src) := by
  simp only [AES.encryptBlock, AES.addRoundKey]
  exact allBytes_zipWith_mod _ _

namespace GCM

theorem length_xorStream (ks : Nat → Nat) (i : Nat) (l : List Nat) :
    (xorStream ks i l).length = l.length := by
  induction l generalizing i with
  | nil => rfl
  | cons b bs ih => simp [xorStream, ih]

theorem xorStream_xorStream (ks : Nat → Nat) (i : Nat) (l : List Nat) :
    xorStream ks i (xorStream ks i l) = l := by
  induction l generalizing i with
  | nil => rfl
  | cons b bs ih => simp [xorStream, ih, Nat.xor_cancel_right]

theorem allBytes_xorStream (ks : Nat → Nat) (hks : ∀ i, ks i < 256) (i : Nat) (l : List Nat)
    (hl : allBytes l) : allBytes (xorStream ks i l) := by
  induction l generalizing i with
  | nil => simp [xorStream, allBytes]
  | cons b bs ih =>
    rw [allBytes_cons] at hl
    simp only [xorStream, allBytes_cons]
    exact ⟨Nat.xor_lt_two_pow (n := 8) hl.1 (hks i), ih (i + 1) hl.2⟩

theorem Open_short (g : AEAD) (nonce ciphertext data : List Nat)
    (h : ciphertext.length < g.tagSize) : Open g nonce ciphertext data = none := by
  simp [Open, h]

theorem length_auth (g : AEAD) (c d m : List Nat) : (auth g c d m).length = 16 := by
  simp [auth, length_natToBytesBE]

/-- Sealing then opening under the same nonce and associated data gives the plaintext back. -/
theorem Open_Seal (g : AEAD) (nonce plaintext data : List Nat) (ht : g.tagSize = 16)
    (hn : nonce.length = g.nonceSize) (hp : plaintext.length ≤ maxPlaintext g) :
    ∃ ct, Seal g nonce plaintext data = some ct ∧ Open g nonce ct data = some plaintext
      ∧ ct = counterCrypt g (gcmInc32 (deriveCounter g nonce)) plaintext
           ++ auth g (counterCrypt g (gcmInc32 (deriveCounter g nonce)) plaintext) data
                (g.cipher.encrypt (deriveCounter g nonce)) := by
  refine ⟨_, ?_, ?_, rfl⟩
  · simp only [Seal, hn, ne_eq, not_true_eq_false, if_false]
    rw [if_neg (by omega)]
    rw [ht, List.take_of_length_le (by rw [length_auth])]
  · have hlen : (counterCrypt g (gcmInc32 (deriveCounter g nonce)) plaintext).length
        = plaintext.length := length_xorStream _ _ _
    simp only [Open, List.length_append, length_auth, hlen, ht]
    rw [if_neg (by omega), if_neg (by omega)]
    have e : plaintext.length + 16 - 16 = plaintext.length := by omega
    simp only [e]
    rw [← hlen, List.take_left, List.drop_left]
    rw [List.take_of_length_le (by rw [length_auth])]
    simp only [ne_eq, not_true_eq_false, if_false]
    exact congrArg some (xorStream_xorStream _ _ _)

end GCM

namespace Hex

theorem encodeRune_hexDigit (n : Nat) (h : n < 16) :
    UTF8.EncodeRune (hexDigit n).toNat = [if n < 10 then 0x30 + n else 0x57 + n] := by
  interval_cases n <;> rfl

theorem fromHexChar_digit (n : Nat) (h : n < 16) :
    fromHexChar (if n < 10 then 0x30 + n else 0x57 + n) = some n := by
  interval_cases n <;> rfl

theorem stringBytes_EncodeToString_cons (b : Nat) (bs : List Nat) (hb : b < 256) :
    stringBytes (EncodeToString (b :: bs)) =
      (if b / 16 < 10 then 0x30 + b / 16 else 0x57 + b / 16)
        :: (if b % 16 < 10 then 0x30 + b % 16 else 0x57 + b % 16)
        :: stringBytes (EncodeToString bs) := by
  have h1 : b / 16 < 16 := by omega
  have h2 : b % 16 < 16 := by omega
  simp only [stringBytes, EncodeToString, String.toList, List.flatMap_cons, List.cons_append,
    List.nil_append, encodeRune_hexDigit _ h1, encodeRune_hexDigit _ h2, List.singleton_append]

/-- Decoding the hexadecimal text of a byte string gives the bytes back. -/
theorem DecodeString_EncodeToString (bs : List Nat) (h : allBytes bs) :
    DecodeString (EncodeToString bs) = .ok bs := by
  unfold DecodeString
  induction bs with
  | nil => rfl
  | cons b bs ih =>
    rw [allBytes_cons] at h
    rw [stringBytes_EncodeToString_cons b bs h.1, Decode,
      fromHexChar_digit _ (by omega), fromHexChar_digit _ (by omega)]
    simp only [ih h.2]
    congr 2
    omega

end Hex

namespace UTF8

theorem char_valid (c : Char) : c.toNat < 0xD800 ∨ (0xDFFF < c.toNat ∧ c.toNat < 0x110000) := by
  have h := c.valid
  simp only [UInt32.isValidChar, Nat.isValidChar] at h
  exact h

/-- Decoding the UTF-8 of a character that is not ASCII gives the character and the number of
its bytes, whatever follows; none of its bytes is below `0x80`. -/
theorem DecodeRune_EncodeRune (c : Char) (rest : List Nat) (h : 0x80 ≤ c.toNat) :
    DecodeRune (EncodeRune c.toNat ++ rest) = (c.toNat, (EncodeRune c.toNat).length)
    ∧ 2 ≤ (EncodeRune c.toNat).length
    ∧ ∃ b0 more, EncodeRune c.toNat = b0 :: more ∧ 0x80 ≤ b0 := by
  have hv := char_valid c
  generalize c.toNat = n at h hv
  unfold EncodeRune
  by_cases h1 : n < 0x80
  · omega
  rw [if_neg h1]
  by_cases h2 : n < 0x800
  · rw [if_pos h2]
    refine ⟨?_, by simp, _, _, rfl, by omega⟩
    simp only [DecodeRune, List.cons_append, List.nil_append, isCont]
    rw [if_neg (by omega), if_pos (by omega)]
    simp only [Bool.and_eq_true, decide_eq_true_eq]
    rw [if_pos (by omega)]
    simp only [List.length_cons, List.length_nil, Prod.mk.injEq, and_true]
    omega
  rw [if_neg h2]
  rw [if_neg (by omega)]
  by_cases h3 : n < 0x10000
  · rw [if_pos h3]
    refine ⟨?_, by simp, _, _, rfl, by omega⟩
    simp only [DecodeRune, List.cons_append, List.nil_append, isCont]
    rw [if_neg (by omega), if_neg (by omega), if_pos (by omega)]
    simp only [Bool.and_eq_true, decide_eq_true_eq]
    rw [if_pos (by split_ifs <;> omega)]
    simp only [List.length_cons, List.length_nil, Prod.mk.injEq, and_true]
    omega
  · rw [if_neg h3]
    refine ⟨?_, by simp, _, _, rfl, by omega⟩
    simp only [DecodeRune, List.cons_append, List.nil_append, isCont]
    rw [if_neg (by omega), if_neg (by omega), if_neg (by omega), if_pos (by omega)]
    simp only [Bool.and_eq_true, decide_eq_true_eq]
    rw [if_pos (by split_ifs <;> omega)]
    simp only [List.length_cons, List.length_nil, Prod.mk.injEq, and_true]
    omega

end UTF8

namespace JSON

theorem hexVal_hexDigitByte (n : Nat) (h : n < 16) : hexVal (hexDigitByte n) = some n := by
  interval_cases n <;> rfl

theorem quoteRune_ne_nil (c : Char) : 1 ≤ (quoteRune c).length := by
  unfold quoteRune UTF8.EncodeRune
  split_ifs <;> simp

theorem length_le_flatMap_quoteRune (s : List Char) :
    s.length ≤ (s.flatMap quoteRune).length := by
  induction s with
  | nil => simp
  | cons c cs ih =>
    have := quoteRune_ne_nil c
    simp only [List.flatMap_cons, List.length_append, List.length_cons]
    omega

/-- One step of `parseStringAux` over the bytes `quoteRune` writes for a character. -/
theorem parseStringAux_quoteRune (fuel : Nat) (c : Char) (tail : List Nat) :
    parseStringAux (fuel + 1) (quoteRune c ++ tail)
      = consChar c (parseStringAux fuel tail) := by
  have hc : Char.ofNat c.toNat = c := Char.ofNat_toNat c
  unfold quoteRune
  by_cases h1 : c.toNat = 0x22
  · rw [if_pos h1]
    show parseStringAux (fuel + 1) (0x5C :: 0x22 :: tail) = _
    rw [parseStringAux]
    simp only [Nat.reduceEqDiff, if_false, if_true, simpleEscape]
    rw [← h1, hc]
  rw [if_neg h1]
  by_cases h2 : c.toNat = 0x5C
  · rw [if_pos h2]
    show parseStringAux (fuel + 1) (0x5C :: 0x5C :: tail) = _
    rw [parseStringAux]
    simp only [Nat.reduceEqDiff, if_false, if_true, simpleEscape]
    rw [← h2, hc]
  rw [if_neg h2]
  by_cases h3 : c.toNat < 0x20
  · rw [if_pos h3]
    show parseStringAux (fuel + 1) (0x5C :: 0x75 :: 0x30 :: 0x30 :: hexDigitByte (c.toNat / 16)
      :: hexDigitByte (c.toNat % 16) :: tail) = _
    rw [parseStringAux]
    have hv0 : hexVal 0x30 = some 0 := by decide
    have e : 0 * 4096 + 0 * 256 + c.toNat / 16 * 16 + c.toNat % 16 = c.toNat := by omega
    simp only [Nat.reduceEqDiff, if_false, if_true, getu4, hv0,
      hexVal_hexDigitByte _ (show c.toNat / 16 < 16 by omega),
      hexVal_hexDigitByte _ (show c.toNat % 16 < 16 by omega), e]
    rw [if_neg (by omega)]
    simp only [List.drop_succ_cons, List.drop_zero, hc]
  rw [if_neg h3]
  by_cases h4 : c.toNat < 0x80
  · have e : UTF8.EncodeRune c.toNat = [c.toNat] := by simp [UTF8.EncodeRune, h4]
    rw [e]
    show parseStringAux (fuel + 1) (c.toNat :: tail) = _
    simp only [parseStringAux]
    rw [if_neg h1, if_neg h2, if_neg h3, if_pos h4, hc]
  · obtain ⟨hd, hl, b0, more, hb, hb0⟩ := UTF8.DecodeRune_EncodeRune c tail (by omega)
    have hd2 := hd
    rw [hb] at hd2 hl ⊢
    rw [List.cons_append] at hd2 ⊢
    simp only [parseStringAux]
    rw [if_neg (by omega), if_neg (by omega), if_neg (by omega), if_neg (by omega)]
    simp only [hd2, hc]
    congr 2
    simp only [List.length_cons, Nat.add_sub_cancel]
    exact List.drop_left _ _

/-- Reading back the bytes of a quoted text gives the text and the input after the closing
quote, with fuel for each character and the quote. -/
theorem parseStringAux_quote (s : List Char) (fuel : Nat) (rest : List Nat)
    (h : s.length < fuel) :
    parseStringAux fuel (s.flatMap quoteRune ++ 0x22 :: rest) = some (s, rest) := by
  induction s generalizing fuel with
  | nil =>
    obtain ⟨f, rfl⟩ : ∃ f, fuel = f + 1 := ⟨fuel - 1, by simp at h; omega⟩
    simp [parseStringAux]
  | cons c cs ih =>
    obtain ⟨f, rfl⟩ : ∃ f, fuel = f + 1 := ⟨fuel - 1, by simp at h; omega⟩
    rw [List.flatMap_cons, List.append_assoc, parseStringAux_quoteRune,
      ih f (by simp at h; omega)]
    rfl

theorem parseString_quote (s : String) (rest : List Nat) :
    parseString (s.toList.flatMap quoteRune ++ 0x22 :: rest) = some (s, rest) := by
  unfold parseString
  rw [parseStringAux_quote s.toList _ rest]
  · rfl
  · have := length_le_flatMap_quoteRune s.toList
    simp only [List.length_append, List.length_cons]
    omega

end JSON

namespace JSON

theorem skipSpace_cons (b : Nat) (r : List Nat) (h : isSpace b = false) :
    skipSpace (b :: r) = b :: r := by
  simp [skipSpace, List.dropWhile, h]

theorem quote_append (s : String) (rest : List Nat) :
    quote s ++ rest = 0x22 :: (s.toList.flatMap quoteRune ++ 0x22 :: rest) := by
  simp [quote]

theorem parseValue_quote (fuel depth : Nat) (s : String) (rest : List Nat) :
    parseValue (fuel + 1) depth (quote s ++ rest) = .ok (.string s, rest) := by
  rw [quote_append, parseValue]
  simp only [Nat.reduceEqDiff, if_false, if_true, parseString_quote]

/-- A member `"key":"text"` followed by a comma and the members `ms`. -/
theorem parseMembers_string_comma (pv : Reader Value) (fuel : Nat) (key s : String)
    (rest r : List Nat) (ms : List (String × Value))
    (hpv : ∀ r, pv (quote s ++ r) = .ok (.string s, r))
    (hrest : isSpace (rest.headD 0) = false)
    (hms : parseMembers pv fuel rest = .ok (ms, r)) :
    parseMembers pv (fuel + 1) (quote key ++ 0x3A :: (quote s ++ 0x2C :: rest))
      = .ok ((key, .string s) :: ms, r) := by
  rw [quote_append, parseMembers]
  simp only [parseString_quote]
  rw [skipSpace_cons _ _ (by decide)]
  simp only []
  rw [skipSpace, quote_append, List.dropWhile_cons_of_neg (by decide), ← quote_append, hpv]
  dsimp only
  rw [skipSpace_cons _ _ (by decide)]
  dsimp only
  have e : skipSpace rest = rest := by
    cases rest with
    | nil => rfl
    | cons b r => exact skipSpace_cons _ _ (by simpa using hrest)
  rw [e, hms]

/-- The last member `"key":"text"` and the closing brace. -/
theorem parseMembers_string_end (pv : Reader Value) (fuel : Nat) (key s : String)
    (rest : List Nat)
    (hpv : ∀ r, pv (quote s ++ r) = .ok (.string s, r)) :
    parseMembers pv (fuel + 1) (quote key ++ 0x3A :: (quote s ++ 0x7D :: rest))
      = .ok ([(key, .string s)], rest) := by
  rw [quote_append, parseMembers]
  simp only [parseString_quote]
  rw [skipSpace_cons _ _ (by decide)]
  simp only []
  rw [skipSpace, quote_append, List.dropWhile_cons_of_neg (by decide), ← quote_append, hpv]
  dsimp only
  rw [skipSpace_cons _ _ (by decide)]

end JSON

namespace config

theorem stringBytes_jsonServiceAccount :
    stringBytes jsonServiceAccount = jsonServiceAccount.toList.flatMap JSON.quoteRune := by
  decide

theorem stringBytes_jsonTelegramBotToken :
    stringBytes jsonTelegramBotToken = jsonTelegramBotToken.toList.flatMap JSON.quoteRune := by
  decide

theorem marshalBundle_eq (record : DecryptedBundle) :
    marshalBundle record = 0x7B :: (JSON.quote jsonServiceAccount ++ 0x3A ::
      (JSON.quote record.ServiceAccountJSONString ++ 0x2C ::
        (JSON.quote jsonTelegramBotToken ++ 0x3A ::
          (JSON.quote record.TelegramBotToken ++ 0x7D :: [])))) := by
  simp only [marshalBundle, JSON.quote, stringBytes_jsonServiceAccount,
    stringBytes_jsonTelegramBotToken, List.cons_append, List.nil_append, List.append_assoc]

theorem parse_marshalBundle (record : DecryptedBundle) :
    JSON.parse (marshalBundle record) = .ok (.object
      [(jsonServiceAccount, .string record.ServiceAccountJSONString),
       (jsonTelegramBotToken, .string record.TelegramBotToken)]) := by
  have hlen : ∃ f, (marshalBundle record).length + 1 = f + 3 := by
    refine ⟨(marshalBundle record).length - 2, ?_⟩
    rw [marshalBundle_eq]
    simp only [List.length_cons, List.length_append, JSON.quote]
    omega
  obtain ⟨f, hf⟩ := hlen
  unfold JSON.parse
  rw [hf, marshalBundle_eq, JSON.skipSpace_cons _ _ (by decide), JSON.parseValue]
  simp only [if_true]
  rw [if_neg (by decide)]
  rw [JSON.quote_append, JSON.skipSpace_cons _ _ (by decide)]
  dsimp only
  rw [← JSON.quote_append]
  rw [JSON.parseMembers_string_comma _ (f + 1) _ _ _ [] _ (fun r => JSON.parseValue_quote _ _ _ r)
    (by simp [JSON.quote]; decide)
    (JSON.parseMembers_string_end _ f _ _ [] (fun r => JSON.parseValue_quote _ _ _ r))]
  rfl

/-- Decoding the JSON text of a record gives the record back. -/
theorem Unmarshal_marshalBundle (record : DecryptedBundle) :
    Unmarshal (marshalBundle record) = .ok record := by
  unfold Unmarshal
  rw [parse_marshalBundle]
  rfl

end config

open config

theorem UTF8.allBytes_EncodeRune (c : Char) : allBytes (UTF8.EncodeRune c.toNat) := by
  have hv := UTF8.char_valid c
  generalize c.toNat = n at hv
  unfold UTF8.EncodeRune
  intro x hx
  split_ifs at hx <;> simp only [List.mem_cons, List.mem_singleton, List.not_mem_nil, or_false] at hx <;> omega

theorem allBytes_flatMap {α : Type} (f : α → List Nat) (l : List α) (h : ∀ a, allBytes (f a)) :
    allBytes (l.flatMap f) := by
  intro x hx
  rw [List.mem_flatMap] at hx
  obtain ⟨a, _, ha⟩ := hx
  exact h a x ha

theorem allBytes_stringBytes (s : String) : allBytes (stringBytes s) :=
  allBytes_flatMap _ _ (fun c => UTF8.allBytes_EncodeRune c)

theorem JSON.allBytes_quoteRune (c : Char) : allBytes (JSON.quoteRune c) := by
  unfold JSON.quoteRune
  split_ifs with h1 h2 h3
  · intro x hx; simp at hx; omega
  · intro x hx; simp at hx; omega
  · intro x hx
    simp only [JSON.hexDigitByte, List.mem_cons, List.mem_singleton, List.not_mem_nil,
      or_false] at hx
    rcases hx with h | h | h | h | h | h <;> subst h <;> first | omega | (split_ifs <;> omega)
  · exact UTF8.allBytes_EncodeRune c

theorem JSON.allBytes_quote (s : String) : allBytes (JSON.quote s) := by
  have e : JSON.quote s = [0x22] ++ s.toList.flatMap JSON.quoteRune ++ [0x22] := rfl
  rw [e, allBytes_append, allBytes_append]
  refine ⟨⟨?_, allBytes_flatMap _ _ JSON.allBytes_quoteRune⟩, ?_⟩
  all_goals intro x hx; simp at hx; omega

theorem config.allBytes_marshalBundle (record : DecryptedBundle) :
    allBytes (marshalBundle record) := by
  unfold marshalBundle
  simp only [allBytes_append]
  refine ⟨⟨⟨⟨⟨⟨⟨⟨?_, ?_⟩, ?_⟩, ?_⟩, ?_⟩, ?_⟩, ?_⟩, ?_⟩, ?_⟩
  all_goals first
    | exact allBytes_stringBytes _
    | exact JSON.allBytes_quote _
    | (intro x hx; simp at hx; omega)

theorem GCM.keyStreamByte_lt (key counter : List Nat) (i : Nat) :
    GCM.keyStreamByte (aes256gcm key) counter i < 256 :=
  getD_lt_of_allBytes _ _ (AES.allBytes_encryptBlock _ _ _)

theorem sliceBytes_framing (salt nonce ct : List Nat) (hs : salt.length = 16)
    (hn : nonce.length = 12) :
    sliceBytes (salt ++ nonce ++ ct) 0 16 = salt
    ∧ sliceBytes (salt ++ nonce ++ ct) 16 28 = nonce
    ∧ sliceBytes (salt ++ nonce ++ ct) 28 (salt ++ nonce ++ ct).length = ct := by
  refine ⟨?_, ?_, ?_⟩
  · rw [sliceBytes, List.drop_zero, List.append_assoc, Nat.sub_zero, ← hs, List.take_left]
  · rw [sliceBytes, List.append_assoc, ← hs, List.drop_left, hs]
    have : 28 - 16 = nonce.length := by omega
    rw [this, List.take_left]
  · rw [sliceBytes_tail]
    have : 28 = (salt ++ nonce).length := by simp [hs, hn]
    rw [this, List.drop_left]

/-- Sealing a plaintext the way `encryptBundle` does gives a hex string that `DecryptBundle`
opens to that plaintext. -/
theorem config.openStep_sealed (pin : String) (salt nonce plaintext : List Nat)
    (hs : salt.length = 16) (hn : nonce.length = 12)
    (hsb : allBytes salt) (hnb : allBytes nonce) (hpb : allBytes plaintext)
    (hfit : plaintext.length ≤ (2 ^ 32 - 2) * 16) :
    ∃ ct, GCM.Seal (aes256gcm (deriveKey pin salt)) nonce plaintext [] = some ct
      ∧ openStep (Hex.EncodeToString (salt ++ nonce ++ ct)) pin = some (some plaintext) := by
  generalize hk : deriveKey pin salt = key
  obtain ⟨ct, hseal, hopen, hct⟩ :=
    GCM.Open_Seal (aes256gcm key) nonce plaintext [] rfl hn hfit
  refine ⟨ct, hseal, ?_⟩
  have hctb : allBytes ct := by
    rw [hct, allBytes_append]
    exact ⟨GCM.allBytes_xorStream _ (GCM.keyStreamByte_lt key _) _ _ hpb,
      allBytes_natToBytesBE _ _⟩
  have hb : allBytes (salt ++ nonce ++ ct) := by
    rw [allBytes_append, allBytes_append]; exact ⟨⟨hsb, hnb⟩, hctb⟩
  have hlen : 28 ≤ (salt ++ nonce ++ ct).length := by
    simp only [List.length_append, hs, hn]; omega
  obtain ⟨f1, f2, f3⟩ := sliceBytes_framing salt nonce ct hs hn
  rw [openStep_of_decode _ pin _ (Hex.DecodeString_EncodeToString _ hb) hlen, f1, f2, f3, hk,
    hopen]

/-- A record whose JSON text fits the plaintext limit of GCM is encrypted to a hex string
that `DecryptBundle` turns back into the record. -/
theorem config.encryptBundle_of_fit (record : DecryptedBundle) (pin : String)
    (salt nonce : List Nat) (hs : salt.length = 16) (hn : nonce.length = 12)
    (hsb : ∀ x ∈ salt, x < 256) (hnb : ∀ x ∈ nonce, x < 256)
    (hfit : (marshalBundle record).length ≤ (2 ^ 32 - 2) * 16) :
    ∃ hex, encryptBundle record pin salt nonce = some hex
      ∧ DecryptBundle hex pin = .ok record := by
  obtain ⟨ct, hseal, hopen⟩ := openStep_sealed pin salt nonce (marshalBundle record) hs hn hsb hnb
    (allBytes_marshalBundle record) hfit
  refine ⟨Hex.EncodeToString (salt ++ nonce ++ ct), ?_, ?_⟩
  · unfold encryptBundle sealBundle
    rw [hseal]
  · rw [DecryptBundle_eq_afterOpen _ _ _ hopen]
    unfold afterOpen
    dsimp only
    rw [Unmarshal_marshalBundle]

/-- A plaintext beyond the limit of GCM is not sealed. -/
theorem config.sealBundle_too_large (plaintext : List Nat) (pin : String)
    (salt nonce : List Nat) (h : ¬ plaintext.length ≤ (2 ^ 32 - 2) * 16) :
    sealBundle plaintext pin salt nonce = none := by
  unfold sealBundle
  generalize deriveKey pin salt = key
  have hseal : GCM.Seal (aes256gcm key) nonce plaintext [] = none := by
    unfold GCM.Seal
    split_ifs with h1 h2
    · rfl
    · rfl
    · exact absurd (Nat.le_of_not_lt h2) h
  rw [hseal]

/-- Claim C2. Round trip: for every record, every PIN, every 16-byte salt and every 12-byte
nonce, whenever `encryptBundle` yields a hex string, `DecryptBundle` of that string under
the same PIN succeeds and returns the record; and it yields one whenever the JSON text of
the record is within the plaintext limit of GCM, the only case in which `Seal` refuses. -/
theorem config.DecryptBundle_encryptBundle (record : DecryptedBundle) (pin : String)
    (salt nonce : List Nat) (hs : salt.length = 16) (hn : nonce.length = 12)
    (hsb : ∀ x ∈ salt, x < 256) (hnb : ∀ x ∈ nonce, x < 256) :
    (∀ hex, encryptBundle record pin salt nonce = some hex →
      DecryptBundle hex pin = .ok record)
    ∧ ((marshalBundle record).length ≤ (2 ^ 32 - 2) * 16 →
      ∃ hex, encryptBundle record pin salt nonce = some hex) := by
  by_cases hfit : (marshalBundle record).length ≤ (2 ^ 32 - 2) * 16
  · obtain ⟨hex0, henc, hdec⟩ := encryptBundle_of_fit record pin salt nonce hs hn hsb hnb hfit
    refine ⟨fun hex h => ?_, fun _ => ⟨hex0, henc⟩⟩
    rw [henc] at h
    injection h with h
    rw [← h]
    exact hdec
  · refine ⟨fun hex h => ?_, fun h => absurd h hfit⟩
    rw [encryptBundle, sealBundle_too_large _ _ _ _ hfit] at h
    exact Option.noConfusion h

theorem config.DecryptBundle_encryptBundle_witness :
    (∀ hex, encryptBundle ⟨"sa", "tok"⟩ "1234" (List.replicate 16 0) (List.replicate 12 7)
        = some hex → DecryptBundle hex "1234" = .ok ⟨"sa", "tok"⟩)
    ∧ ∃ hex, encryptBundle ⟨"sa", "tok"⟩ "1234" (List.replicate 16 0) (List.replicate 12 7)
        = some hex :=
  ⟨(config.DecryptBundle_encryptBundle ⟨"sa", "tok"⟩ "1234" (List.replicate 16 0)
      (List.replicate 12 7) (by decide) (by decide) (by decide) (by decide)).1,
   (config.DecryptBundle_encryptBundle ⟨"sa", "tok"⟩ "1234" (List.replicate 16 0)
      (List.replicate 12 7) (by decide) (by decide) (by decide) (by decide)).2 (by decide)⟩

/-! ## Theorems: length boundary and failures of `Open` -/

open config

/-- A bundle whose ciphertext is shorter than a tag reaches `Open`, which fails. -/
theorem config.openStep_short_ciphertext (hex pin : String) (b : List Nat)
    (hdec : Hex.DecodeString hex = .ok b) (h28 : 28 ≤ b.length) (h44 : b.length < 44) :
    openStep hex pin = some none := by
  rw [openStep_of_decode hex pin b hdec h28, sliceBytes_tail,
    GCM.Open_short _ _ _ _ (by simp [aes256gcm]; omega)]


/-- Claim C3. Length boundary, for every PIN and every hex string that decodes to `b`:
with fewer than 28 bytes `DecryptBundle` fails with the too-short error, whatever the key
derivation function is (the key plays no part); with exactly 28 bytes it reaches `Open`,
which fails, and the error is the decrypt error, not the too-short one. -/
theorem config.DecryptBundle_length_boundary (hex pin : String) (b : List Nat)
    (hdec : Hex.DecodeString hex = .ok b) :
    (b.length < 28 →
      (∀ kdf, DecryptBundleWith kdf hex pin = .error (.tooShort b.length))
      ∧ DecryptBundle hex pin = .error (.tooShort b.length))
    ∧ (b.length = 28 →
      openStep hex pin = some none
      ∧ DecryptBundle hex pin = .error .decrypt
      ∧ DecryptBundle hex pin ≠ .error (.tooShort b.length)) := by
  refine ⟨fun h => ⟨fun kdf => DecryptBundleWith_short kdf hex pin b hdec h,
    DecryptBundleWith_short _ hex pin b hdec h⟩, fun h => ?_⟩
  have ho : openStep hex pin = some none :=
    openStep_short_ciphertext hex pin b hdec (by omega) (by omega)
  have hD := DecryptBundle_eq_afterOpen hex pin none ho
  refine ⟨ho, hD, ?_⟩
  rw [hD]
  exact fun h => by cases h

theorem config.DecryptBundle_length_boundary_witness :
    DecryptBundle "000000000000000000000000000000000000000000000000000000" "1234"
        = .error (.tooShort 27)
    ∧ DecryptBundle "00000000000000000000000000000000000000000000000000000000" "1234"
        = .error .decrypt :=
  ⟨((config.DecryptBundle_length_boundary
      "000000000000000000000000000000000000000000000000000000" "1234"
      (List.replicate 27 0) (by decide)).1 (by decide)).2,
   ((config.DecryptBundle_length_boundary
      "00000000000000000000000000000000000000000000000000000000" "1234"
      (List.replicate 28 0) (by decide)).2 (by decide)).2.1⟩

/-- Claim C4. Oracle indistinguishability: any two inputs on which `DecryptBundle` fails at
the call of `Open` get the same result, the decrypt error without a bundle, whatever the
PINs and the bundle bytes are. -/
theorem config.DecryptBundle_open_failure_uniform (hex1 pin1 hex2 pin2 : String)
    (h1 : openStep hex1 pin1 = some none) (h2 : openStep hex2 pin2 = some none) :
    DecryptBundle hex1 pin1 = DecryptBundle hex2 pin2
    ∧ DecryptBundle hex1 pin1 = .error .decrypt
    ∧ DecryptBundle hex2 pin2 = .error .decrypt := by
  have e1 := DecryptBundle_eq_afterOpen hex1 pin1 none h1
  have e2 := DecryptBundle_eq_afterOpen hex2 pin2 none h2
  exact ⟨e1.trans e2.symm, e1, e2⟩

theorem config.DecryptBundle_open_failure_uniform_witness :
    DecryptBundle "00000000000000000000000000000000000000000000000000000000" "1234"
      = DecryptBundle "0102030405060708090a0b0c0d0e0f101112131415161718191a1b1c1d1e1f" "0000" :=
  (config.DecryptBundle_open_failure_uniform
    "00000000000000000000000000000000000000000000000000000000" "1234"
    "0102030405060708090a0b0c0d0e0f101112131415161718191a1b1c1d1e1f" "0000"
    (openStep_short_ciphertext _ "1234" (List.replicate 28 0) (by decide) (by decide)
      (by decide))
    (openStep_short_ciphertext _ "0000" ((List.range 31).map (· + 1)) (by decide) (by decide)
      (by decide))).1

/-! ## Theorems: the decrypted payload -/

open config

theorem config.emptyObjectBundle_opens :
    openStep emptyObjectBundle "1234" = some (some [0x7B, 0x7D]) := by
  obtain ⟨ct, hseal, hopen⟩ := openStep_sealed "1234" (List.replicate 16 0)
    (List.replicate 12 0) [0x7B, 0x7D] (by decide) (by decide)
    (fun x hx => by simp at hx; omega) (fun x hx => by simp at hx; omega)
    (fun x hx => by simp at hx; omega) (by decide)
  have e : emptyObjectBundle
      = Hex.EncodeToString (List.replicate 16 0 ++ List.replicate 12 0 ++ ct) := by
    unfold emptyObjectBundle sealBundle
    rw [hseal]
    rfl
  rw [e, hopen]

/-- Claim C5, counterexample. The bundle that seals the JSON object `{}`, which has neither
field, is opened to that plaintext, and `DecryptBundle` returns a bundle with two empty
strings instead of failing. -/
theorem config.DecryptBundle_accepts_missing_fields :
    openStep emptyObjectBundle "1234" = some (some [0x7B, 0x7D])
    ∧ JSON.parse [0x7B, 0x7D] = .ok (.object [])
    ∧ DecryptBundle emptyObjectBundle "1234" = .ok ⟨"", ""⟩ := by
  refine ⟨emptyObjectBundle_opens, rfl, ?_⟩
  rw [DecryptBundle_eq_afterOpen _ _ _ emptyObjectBundle_opens]
  rfl

theorem config.storeField_storable (st : DecodeState) (field : String) (v : JSON.Value)
    (set : DecryptedBundle → String → DecryptedBundle) (hv : storable v) :
    (storeField st field v set).savedError = st.savedError := by
  rcases hv with ⟨s, rfl⟩ | rfl <;> rfl

theorem config.storeMember_storable (st : DecodeState) (m : String × JSON.Value)
    (hv : storable m.2) : (storeMember st m).savedError = st.savedError := by
  unfold storeMember
  split_ifs <;> first | rfl | exact storeField_storable _ _ _ _ hv

theorem config.foldl_storeMember_storable (ms : List (String × JSON.Value)) (st : DecodeState)
    (hv : ∀ m ∈ ms, storable m.2) :
    (ms.foldl storeMember st).savedError = st.savedError := by
  induction ms generalizing st with
  | nil => rfl
  | cons m ms ih =>
    rw [List.foldl_cons, ih _ (fun x hx => hv x (List.mem_cons_of_mem _ hx)),
      storeMember_storable _ _ (hv m (List.mem_cons_self _ _))]

theorem config.storeField_keeps_serviceAccount (st : DecodeState) (field : String)
    (v : JSON.Value) :
    (storeField st field v
      (fun b s => ⟨b.ServiceAccountJSONString, s⟩)).bundle.ServiceAccountJSONString
      = st.bundle.ServiceAccountJSONString := by
  unfold storeField
  split
  · rfl
  · rfl
  · split <;> rfl

theorem config.storeField_keeps_telegramBotToken (st : DecodeState) (field : String)
    (v : JSON.Value) :
    (storeField st field v (fun b s => ⟨s, b.TelegramBotToken⟩)).bundle.TelegramBotToken
      = st.bundle.TelegramBotToken := by
  unfold storeField
  split
  · rfl
  · rfl
  · split <;> rfl

theorem config.foldl_storeMember_serviceAccount (ms : List (String × JSON.Value))
    (st : DecodeState) (ha : fieldAbsent jsonServiceAccount ms) :
    (ms.foldl storeMember st).bundle.ServiceAccountJSONString
      = st.bundle.ServiceAccountJSONString := by
  induction ms generalizing st with
  | nil => rfl
  | cons m ms ih =>
    rw [List.foldl_cons, ih _ (fun x hx => ha x (List.mem_cons_of_mem _ hx))]
    obtain ⟨h1, h2⟩ := ha m (List.mem_cons_self _ _)
    unfold storeMember
    rw [if_neg h1]
    by_cases h4 : m.1 = jsonTelegramBotToken
    · rw [if_pos h4]
      exact storeField_keeps_serviceAccount _ _ _
    · rw [if_neg h4, if_neg (by simp [h2])]
      by_cases h6 : JSON.equalFold m.1 jsonTelegramBotToken = true
      · rw [if_pos h6]
        exact storeField_keeps_serviceAccount _ _ _
      · rw [if_neg h6]

theorem config.foldl_storeMember_telegramBotToken (ms : List (String × JSON.Value))
    (st : DecodeState) (ha : fieldAbsent jsonTelegramBotToken ms) :
    (ms.foldl storeMember st).bundle.TelegramBotToken = st.bundle.TelegramBotToken := by
  induction ms generalizing st with
  | nil => rfl
  | cons m ms ih =>
    rw [List.foldl_cons, ih _ (fun x hx => ha x (List.mem_cons_of_mem _ hx))]
    obtain ⟨h1, h2⟩ := ha m (List.mem_cons_self _ _)
    unfold storeMember
    by_cases h3 : m.1 = jsonServiceAccount
    · rw [if_pos h3]
      exact storeField_keeps_telegramBotToken _ _ _
    · rw [if_neg h3, if_neg h1]
      by_cases h4 : JSON.equalFold m.1 jsonServiceAccount = true
      · rw [if_pos h4]
        exact storeField_keeps_telegramBotToken _ _ _
      · rw [if_neg h4, if_neg (by simp [h2])]

/-- Claim C5, amended. When `Open` succeeds with the plaintext `p`, `DecryptBundle` fails
with the unmarshal error exactly when `Unmarshal` rejects `p` and returns its bundle
otherwise; if `p` is a JSON object whose member values are strings or `null`, a bundle is
returned even when fields are missing, and a field that no member names is empty. -/
theorem config.DecryptBundle_payload (hex pin : String) (p : List Nat)
    (hopen : openStep hex pin = some (some p)) :
    (∀ e, Unmarshal p = .error e → DecryptBundle hex pin = .error (.unmarshal e))
    ∧ (∀ bundle, Unmarshal p = .ok bundle → DecryptBundle hex pin = .ok bundle)
    ∧ (∀ ms, JSON.parse p = .ok (.object ms) → (∀ m ∈ ms, storable m.2) →
        ∃ bundle, DecryptBundle hex pin = .ok bundle
          ∧ (fieldAbsent jsonServiceAccount ms → bundle.ServiceAccountJSONString = "")
          ∧ (fieldAbsent jsonTelegramBotToken ms → bundle.TelegramBotToken = "")) := by
  have hD := DecryptBundle_eq_afterOpen hex pin _ hopen
  have herr : ∀ e, Unmarshal p = .error e → DecryptBundle hex pin = .error (.unmarshal e) := by
    intro e he; rw [hD]; simp only [afterOpen, he]
  have hok : ∀ bundle, Unmarshal p = .ok bundle → DecryptBundle hex pin = .ok bundle := by
    intro r hr; rw [hD]; simp only [afterOpen, hr]
  refine ⟨herr, hok, ?_⟩
  intro ms hms hv
  have hs := foldl_storeMember_storable ms ⟨⟨"", ""⟩, none⟩ hv
  refine ⟨(ms.foldl storeMember ⟨⟨"", ""⟩, none⟩).bundle, hok _ ?_,
    fun ha => foldl_storeMember_serviceAccount ms _ ha,
    fun ha => foldl_storeMember_telegramBotToken ms _ ha⟩
  simp only [Unmarshal, hms, decodeBundle]
  rw [hs]

theorem config.DecryptBundle_payload_witness :
    ∃ bundle, DecryptBundle emptyObjectBundle "1234" = .ok bundle
      ∧ (fieldAbsent jsonServiceAccount [] → bundle.ServiceAccountJSONString = "")
      ∧ (fieldAbsent jsonTelegramBotToken [] → bundle.TelegramBotToken = "") :=
  (config.DecryptBundle_payload emptyObjectBundle "1234" [0x7B, 0x7D]
    emptyObjectBundle_opens).2.2 [] rfl (by simp)

/-! ## Theorems: soundness of the regular expression matcher -/

namespace Regexp

theorem matchRep_sound (cls : Char → Bool) (k : MState → Option MState) (rest : List Char) :
    ∀ (min : Nat) (pre : List Char) (cap : Option (Nat × Nat)) (r : MState),
    matchRep cls k min pre rest cap = some r →
    ∃ w xs, rest = w ++ xs ∧ min ≤ w.length ∧ (∀ c ∈ w, cls c = true)
      ∧ k ⟨w.reverse ++ pre, xs, cap⟩ = some r := by
  induction rest with
  | nil =>
    intro min pre cap r h
    simp only [matchRep] at h
    split_ifs at h with h0
    exact ⟨[], [], rfl, by simp [h0], by simp, h⟩
  | cons x xs ih =>
    intro min pre cap r h
    have hstop : (if min = 0 then k ⟨pre, x :: xs, cap⟩ else none) = some r →
        ∃ w ys, x :: xs = w ++ ys ∧ min ≤ w.length ∧ (∀ c ∈ w, cls c = true)
          ∧ k ⟨w.reverse ++ pre, ys, cap⟩ = some r := by
      intro h'
      split_ifs at h' with h0
      exact ⟨[], x :: xs, rfl, by simp [h0], by simp, h'⟩
    simp only [matchRep] at h
    by_cases hx : cls x = true
    · rw [if_pos hx] at h
      cases hrec : matchRep cls k (min - 1) (x :: pre) xs cap with
      | some r' =>
        rw [hrec] at h
        simp only [Option.some.injEq] at h
        subst h
        obtain ⟨w, ys, hw, hmin, hall, hk⟩ := ih _ _ _ _ hrec
        refine ⟨x :: w, ys, by rw [hw]; rfl, by simp; omega, ?_, ?_⟩
        · intro c hc
          rcases List.mem_cons.1 hc with rfl | hc
          · exact hx
          · exact hall c hc
        · simpa using hk
      | none =>
        rw [hrec] at h
        exact hstop h
    · rw [if_neg hx] at h
      exact hstop h

/-- Soundness of the matcher: a successful match ends at a position the expression allows,
and the continuation succeeds there. -/
theorem matchRe_sound (re : Re) :
    ∀ (k : MState → Option MState) (st r : MState), matchRe re k st = some r →
      ∃ fin, Sem re st fin ∧ k fin = some r := by
  induction re with
  | empty => intro k st r h; exact ⟨st, rfl, h⟩
  | lit c =>
    intro k st r h
    simp only [matchRe] at h
    split at h
    · rename_i x xs hrest
      split_ifs at h with hx
      subst hx
      exact ⟨_, ⟨xs, hrest, rfl⟩, h⟩
    · exact Option.noConfusion h
  | seq a b iha ihb =>
    intro k st r h
    simp only [matchRe] at h
    obtain ⟨mid, hmid, hk⟩ := iha _ _ _ h
    obtain ⟨fin, hfin, hk'⟩ := ihb _ _ _ hk
    exact ⟨fin, ⟨mid, hmid, hfin⟩, hk'⟩
  | alt a b iha ihb =>
    intro k st r h
    simp only [matchRe] at h
    cases ha : matchRe a k st with
    | some r' =>
      rw [ha] at h
      simp only [Option.some.injEq] at h
      subst h
      obtain ⟨fin, hfin, hk⟩ := iha _ _ _ ha
      exact ⟨fin, Or.inl hfin, hk⟩
    | none =>
      rw [ha] at h
      obtain ⟨fin, hfin, hk⟩ := ihb _ _ _ h
      exact ⟨fin, Or.inr hfin, hk⟩
  | opt a iha =>
    intro k st r h
    simp only [matchRe] at h
    cases ha : matchRe a k st with
    | some r' =>
      rw [ha] at h
      simp only [Option.some.injEq] at h
      subst h
      obtain ⟨fin, hfin, hk⟩ := iha _ _ _ ha
      exact ⟨fin, Or.inl hfin, hk⟩
    | none =>
      rw [ha] at h
      exact ⟨st, Or.inr rfl, h⟩
  | rep min cls =>
    intro k st r h
    simp only [matchRe] at h
    obtain ⟨w, xs, hw, hmin, hall, hk⟩ := matchRep_sound _ _ _ _ _ _ _ h
    exact ⟨_, ⟨w, xs, hw, hmin, hall, rfl⟩, hk⟩
  | wordBoundary =>
    intro k st r h
    simp only [matchRe] at h
    split_ifs at h with hb
    exact ⟨st, ⟨hb, rfl⟩, h⟩
  | beginText =>
    intro k st r h
    simp only [matchRe] at h
    split_ifs at h with hb
    exact ⟨st, ⟨hb, rfl⟩, h⟩
  | endText =>
    intro k st r h
    simp only [matchRe] at h
    split_ifs at h with hb
    exact ⟨st, ⟨hb, rfl⟩, h⟩
  | cap a iha =>
    intro k st r h
    simp only [matchRe] at h
    obtain ⟨e, he, hk⟩ := iha _ _ _ h
    exact ⟨_, ⟨e, he, rfl⟩, hk⟩

/-- A match moves through the text without changing it. -/
theorem Sem_text (re : Re) : ∀ (st fin : MState), Sem re st fin →
    fin.pre.reverse ++ fin.rest = st.pre.reverse ++ st.rest := by
  induction re with
  | empty => intro st fin h; rw [show fin = st from h]
  | lit c =>
    rintro st fin ⟨xs, hrest, rfl⟩
    simp [hrest]
  | seq a b iha ihb =>
    rintro st fin ⟨mid, h1, h2⟩
    rw [ihb _ _ h2, iha _ _ h1]
  | alt a b iha ihb =>
    rintro st fin (h | h)
    · exact iha _ _ h
    · exact ihb _ _ h
  | opt a iha =>
    rintro st fin (h | h)
    · exact iha _ _ h
    · rw [h]
  | rep min cls =>
    rintro st fin ⟨w, xs, hw, _, _, rfl⟩
    simp [hw]
  | wordBoundary => rintro st fin ⟨_, rfl⟩; rfl
  | beginText => rintro st fin ⟨_, rfl⟩; rfl
  | endText => rintro st fin ⟨_, rfl⟩; rfl
  | cap a iha =>
    rintro st fin ⟨e, he, rfl⟩
    exact iha st e he

/-- The search tries positions of the text it was given, in order. -/
theorem searchFrom_sound (re : Re) (rest : List Char) :
    ∀ (pre : List Char) (start : Nat) (fin : MState),
      searchFrom re pre rest = some (start, fin) →
      ∃ p q, p.reverse ++ q = pre.reverse ++ rest ∧ start = p.length
        ∧ matchRe re some ⟨p, q, none⟩ = some fin := by
  induction rest with
  | nil =>
    intro pre start fin h
    simp only [searchFrom, Option.map_eq_some'] at h
    obtain ⟨r, hr, he⟩ := h
    simp only [Prod.mk.injEq] at he
    obtain ⟨rfl, rfl⟩ := he
    exact ⟨pre, [], rfl, rfl, hr⟩
  | cons x xs ih =>
    intro pre start fin h
    simp only [searchFrom] at h
    cases hm : matchRe re some ⟨pre, x :: xs, none⟩ with
    | some r =>
      rw [hm] at h
      simp only [Option.some.injEq, Prod.mk.injEq] at h
      obtain ⟨rfl, rfl⟩ := h
      exact ⟨pre, x :: xs, rfl, rfl, hm⟩
    | none =>
      rw [hm] at h
      obtain ⟨p, q, hpq, hs, hmm⟩ := ih _ _ _ h
      exact ⟨p, q, by rw [hpq]; simp, hs, hmm⟩

end Regexp

namespace gdrive

open Regexp

/-- What follows the identifier leaves the captured span as it is. -/
theorem Sem_idEnd_cap (st fin : MState) (h : Sem idEnd st fin) : fin.cap = st.cap := by
  have h' : (atWordBoundary st = true ∧ fin = st)
      ∨ ((∃ xs, st.rest = '?' :: xs ∧ fin = ⟨'?' :: st.pre, xs, st.cap⟩)
        ∨ (st.rest = [] ∧ fin = st)) := h
  rcases h' with ⟨_, rfl⟩ | ⟨xs, _, rfl⟩ | ⟨_, rfl⟩ <;> rfl

/-- A match of `driveIdRegex` captures a run of 25 or more identifier characters of the text. -/
theorem driveIdRegex_capture (s : List Char) (start : Nat) (fin : MState)
    (h : searchFrom driveIdRegex [] s = some (start, fin)) :
    ∃ p w xs, s = p ++ w ++ xs ∧ 25 ≤ w.length ∧ (∀ c ∈ w, idClass c = true)
      ∧ fin.cap = some (p.length, p.length + w.length) := by
  obtain ⟨p0, q0, htext, _, hm⟩ := searchFrom_sound _ _ _ _ _ h
  obtain ⟨fin', hsem, hk⟩ := matchRe_sound _ _ _ _ hm
  simp only [Option.some.injEq] at hk
  subst hk
  have hsem' : ∃ mid : MState, Sem linkPrefix ⟨p0, q0, none⟩ mid ∧ ∃ mid2 : MState,
      (∃ e : MState, (∃ w xs, mid.rest = w ++ xs ∧ 25 ≤ w.length ∧ (∀ c ∈ w, idClass c = true)
          ∧ e = ⟨w.reverse ++ mid.pre, xs, mid.cap⟩)
        ∧ mid2 = ⟨e.pre, e.rest, some (mid.pre.length, e.pre.length)⟩)
      ∧ Sem idEnd mid2 fin' := hsem
  obtain ⟨mid, hpre, mid2, ⟨e, ⟨w, xs, hw, hlen, hall, rfl⟩, rfl⟩, hend⟩ := hsem'
  have ht := Sem_text _ _ _ hpre
  simp only [List.reverse_nil, List.nil_append] at htext
  rw [htext, hw] at ht
  refine ⟨mid.pre.reverse, w, xs, ?_, hlen, hall, ?_⟩
  · rw [List.append_assoc]; exact ht.symm
  · rw [Sem_idEnd_cap _ _ hend]
    simp only [List.length_reverse, List.length_append, Option.some.injEq, Prod.mk.injEq,
      true_and]
    omega

/-- A match of `rawIdRegex` means the whole text is 25 or more identifier characters. -/
theorem rawIdRegex_match (s : List Char) (start : Nat) (fin : MState)
    (h : searchFrom rawIdRegex [] s = some (start, fin)) :
    25 ≤ s.length ∧ ∀ c ∈ s, idClass c = true := by
  obtain ⟨p0, q0, htext, _, hm⟩ := searchFrom_sound _ _ _ _ _ h
  obtain ⟨fin', hsem, _⟩ := matchRe_sound _ _ _ _ hm
  have hsem' : ∃ mid : MState, ((⟨p0, q0, none⟩ : MState).pre = [] ∧ mid = ⟨p0, q0, none⟩) ∧ ∃ mid2 : MState,
      (∃ w xs, mid.rest = w ++ xs ∧ 25 ≤ w.length ∧ (∀ c ∈ w, idClass c = true)
          ∧ mid2 = ⟨w.reverse ++ mid.pre, xs, mid.cap⟩)
      ∧ (mid2.rest = [] ∧ fin' = mid2) := hsem
  obtain ⟨mid, ⟨hp, rfl⟩, mid2, ⟨w, xs, hw, hlen, hall, rfl⟩, ⟨hx, rfl⟩⟩ := hsem'
  simp only at hp hw hx
  subst hp hx
  simp only [List.reverse_nil, List.nil_append, List.append_nil] at htext hw
  rw [← htext, hw]
  exact ⟨hlen, hall⟩

theorem sliceString_append (p w xs : List Char) :
    sliceString (String.mk (p ++ w ++ xs)) p.length (p.length + w.length) = String.mk w := by
  simp [sliceString, String.toList]

/-- The two ways `ExtractFileID` returns without an error. -/
theorem ExtractFileID_cases (s : String) :
    (∃ p w xs, s.toList = p ++ w ++ xs ∧ 25 ≤ w.length ∧ (∀ c ∈ w, idClass c = true)
        ∧ ExtractFileID s = (String.mk w, none))
    ∨ ((25 ≤ s.length ∧ ∀ c ∈ s.toList, idClass c = true) ∧ ExtractFileID s = (s, none))
    ∨ (searchFrom driveIdRegex [] s.toList = none ∧ searchFrom rawIdRegex [] s.toList = none
        ∧ ExtractFileID s = ("", some (errorMessage s))) := by
  cases hd : searchFrom driveIdRegex [] s.toList with
  | some r =>
    obtain ⟨start, fin⟩ := r
    obtain ⟨p, w, xs, hs, hlen, hall, hcap⟩ := driveIdRegex_capture _ _ _ hd
    left
    refine ⟨p, w, xs, hs, hlen, hall, ?_⟩
    have hsl : sliceString s p.length (p.length + w.length) = String.mk w := by
      have : s = String.mk (p ++ w ++ xs) := by rw [← hs]; cases s; rfl
      rw [this]; exact sliceString_append p w xs
    have hne : String.mk w ≠ "" := by
      intro h
      have : w = [] := by simpa using congrArg String.toList h
      rw [this] at hlen
      simp at hlen
    unfold ExtractFileID FindStringSubmatch
    rw [hd]
    simp only [hcap, hsl]
    rw [if_pos ⟨by simp, by simpa using hne⟩]
    simp
  | none =>
    right
    have hfirst : ExtractFileID s = if MatchString rawIdRegex s then (s, none)
        else ("", some (errorMessage s)) := by
      unfold ExtractFileID FindStringSubmatch
      rw [hd]
      simp
    cases hr : searchFrom rawIdRegex [] s.toList with
    | some r =>
      left
      obtain ⟨start, fin⟩ := r
      refine ⟨rawIdRegex_match _ _ _ hr, ?_⟩
      rw [hfirst, MatchString, hr]
      rfl
    | none =>
      right
      refine ⟨rfl, rfl, ?_⟩
      rw [hfirst, MatchString, hr]
      rfl

end gdrive

/-! ## Theorems: `ExtractFileID` -/

namespace gdrive

open Regexp

theorem idClass_not_url (c : Char) (h : idClass c = true) :
    c ≠ ':' ∧ c ≠ '/' ∧ c ≠ '.' ∧ c ≠ '?' ∧ c ≠ '=' ∧ c ≠ '&' := by
  refine ⟨?_, ?_, ?_, ?_, ?_, ?_⟩ <;> (rintro rfl; revert h; decide)

/-- Claim C6. Whenever `ExtractFileID` succeeds, the identifier it returns is a contiguous
part of the input, has 25 characters or more, all of them of `[A-Za-z0-9_-]`, and so holds
none of the characters `:`, `/`, `.`, `?`, `=`, `&` of a URL. -/
theorem ExtractFileID_canonical (s : String) (h : (ExtractFileID s).2 = none) :
    (ExtractFileID s).1.toList <:+: s.toList
    ∧ 25 ≤ (ExtractFileID s).1.length
    ∧ (∀ c ∈ (ExtractFileID s).1.toList, idClass c = true)
    ∧ (∀ c ∈ (ExtractFileID s).1.toList,
        c ≠ ':' ∧ c ≠ '/' ∧ c ≠ '.' ∧ c ≠ '?' ∧ c ≠ '=' ∧ c ≠ '&') := by
  rcases ExtractFileID_cases s with ⟨p, w, xs, hs, hlen, hall, he⟩ | ⟨⟨hlen, hall⟩, he⟩
    | ⟨_, _, he⟩
  · rw [he]
    refine ⟨⟨p, xs, hs.symm⟩, hlen, hall, fun c hc => idClass_not_url c (hall c hc)⟩
  · rw [he]
    exact ⟨List.infix_refl _, hlen, hall, fun c hc => idClass_not_url c (hall c hc)⟩
  · rw [he] at h
    exact Option.noConfusion h

theorem ExtractFileID_canonical_witness :
    (ExtractFileID "https://drive.google.com/open?id=1AbCDefGhIJKlmnoPQRstuVWXyz0123456789").1.toList
      <:+: "https://drive.google.com/open?id=1AbCDefGhIJKlmnoPQRstuVWXyz0123456789".toList
    ∧ 25 ≤ (ExtractFileID
        "https://drive.google.com/open?id=1AbCDefGhIJKlmnoPQRstuVWXyz0123456789").1.length :=
  ⟨(ExtractFileID_canonical _ (by decide)).1, (ExtractFileID_canonical _ (by decide)).2.1⟩

theorem not_hasIdRun_of_search_none (s : String) (h : ¬ hasIdRun 25 s) :
    searchFrom driveIdRegex [] s.toList = none ∧ searchFrom rawIdRegex [] s.toList = none := by
  have key : ∀ p w xs : List Char, s.toList = p ++ w ++ xs → 25 ≤ w.length →
      (∀ c ∈ w, idClass c = true) → False := by
    intro p w xs hs hlen hall
    apply h
    refine ⟨w.take 25, ?_, by simp; omega, fun c hc => hall c (List.mem_of_mem_take hc)⟩
    refine ⟨p, w.drop 25 ++ xs, ?_⟩
    rw [hs]
    simp only [List.append_assoc]
    rw [← List.append_assoc (w.take 25), List.take_append_drop]
  constructor
  · cases hd : searchFrom driveIdRegex [] s.toList with
    | none => rfl
    | some r =>
      obtain ⟨p, w, xs, hs, hlen, hall, _⟩ := driveIdRegex_capture _ r.1 r.2 hd
      exact (key p w xs hs hlen hall).elim
  · cases hr : searchFrom rawIdRegex [] s.toList with
    | none => rfl
    | some r =>
      obtain ⟨hlen, hall⟩ := rawIdRegex_match _ r.1 r.2 hr
      exact (key [] s.toList [] (by simp) hlen hall).elim

/-- Claim C10. On an input without a run of 25 consecutive characters of `[A-Za-z0-9_-]`,
`ExtractFileID` fails: the identifier is empty and the error message ends with the input
itself. -/
theorem ExtractFileID_unrecognized (s : String) (h : ¬ hasIdRun 25 s) :
    ExtractFileID s = ("", some (errorMessage s))
    ∧ s.toList <:+: (errorMessage s).toList := by
  obtain ⟨hd, hr⟩ := not_hasIdRun_of_search_none s h
  constructor
  · unfold ExtractFileID FindStringSubmatch MatchString
    rw [hd, hr]
    rfl
  · exact ⟨"invalid or unextractable Google Drive ID/link format: ".toList, [], by
      simp [errorMessage]⟩

theorem ExtractFileID_unrecognized_witness :
    ExtractFileID "short123"
        = ("", some "invalid or unextractable Google Drive ID/link format: short123")
    ∧ ExtractFileID "" = ("", some "invalid or unextractable Google Drive ID/link format: ") :=
  ⟨(ExtractFileID_unrecognized "short123" (by
      rintro ⟨w, hw, hl, _⟩
      have hle := hw.length_le
      rw [hl] at hle
      exact absurd hle (by decide))).1,
   (ExtractFileID_unrecognized "" (by
      rintro ⟨w, hw, hl, _⟩
      have hle := hw.length_le
      rw [hl] at hle
      exact absurd hle (by decide))).1⟩

/-- Claim C7, failing input. The canonical identifier
`1AbCDefGhIJKlmnoPQRstuVWXyz0123456789-` ends with a hyphen; from the view link built
around it `ExtractFileID` returns the identifier without the hyphen. -/
theorem ExtractFileID_view_link_trailing_hyphen :
    isCanonicalId "1AbCDefGhIJKlmnoPQRstuVWXyz0123456789-"
    ∧ ExtractFileID
        ("https://drive.google.com/file/d/" ++ "1AbCDefGhIJKlmnoPQRstuVWXyz0123456789-" ++ "/view")
      = ("1AbCDefGhIJKlmnoPQRstuVWXyz0123456789", none) := by
  refine ⟨⟨by decide, by decide⟩, by decide⟩

/-- Claim C8, failing input. The bare canonical identifier
`-1AbCDefGhIJKlmnoPQRstuVWXyz0123456789` starts with a hyphen; `ExtractFileID` returns it
without the hyphen. -/
theorem ExtractFileID_bare_leading_hyphen :
    isCanonicalId "-1AbCDefGhIJKlmnoPQRstuVWXyz0123456789"
    ∧ ExtractFileID "-1AbCDefGhIJKlmnoPQRstuVWXyz0123456789"
      = ("1AbCDefGhIJKlmnoPQRstuVWXyz0123456789", none) := by
  refine ⟨⟨by decide, by decide⟩, by decide⟩

/-- Claim C9, failing input. From a view link `ExtractFileID` extracts the identifier
`-1AbCDefGhIJKlmnoPQRstuVWXyz0123456789`; applied to that identifier it returns a
different one, without the leading hyphen. -/
theorem ExtractFileID_not_idempotent :
    ExtractFileID "https://drive.google.com/file/d/-1AbCDefGhIJKlmnoPQRstuVWXyz0123456789/view"
      = ("-1AbCDefGhIJKlmnoPQRstuVWXyz0123456789", none)
    ∧ ExtractFileID "-1AbCDefGhIJKlmnoPQRstuVWXyz0123456789"
      = ("1AbCDefGhIJKlmnoPQRstuVWXyz0123456789", none) := by
  refine ⟨by decide, by decide⟩

end gdrive

/-! ## Theorems: `HumanReadableSize` -/

namespace utils

theorem sizeLoop_lt (n : Nat) (d : Int) (e : Nat) (h : n < 1024) : sizeLoop n d e = (d, e) := by
  rw [sizeLoop, dif_neg (by unfold unit; omega)]

theorem sizeLoop_ge (n : Nat) (d : Int) (e : Nat) (h : 1024 ≤ n) :
    sizeLoop n d e = sizeLoop (n / 1024) (wrapInt64 (d * 1024)) (e + 1) := by
  rw [sizeLoop, dif_pos (by unfold unit; omega)]
  rfl

/-- The result of the loop for each range of the quotient `bytes / 1024` of a `uint64`. -/
theorem sizeLoop_uint64 (m : Nat) (h : m < 2 ^ 54) :
    (m < 1024 ∧ sizeLoop m 1024 0 = (1024, 0))
    ∨ (1024 ≤ m ∧ m < 1024 ^ 2 ∧ sizeLoop m 1024 0 = (1024 ^ 2, 1))
    ∨ (1024 ^ 2 ≤ m ∧ m < 1024 ^ 3 ∧ sizeLoop m 1024 0 = (1024 ^ 3, 2))
    ∨ (1024 ^ 3 ≤ m ∧ m < 1024 ^ 4 ∧ sizeLoop m 1024 0 = (1024 ^ 4, 3))
    ∨ (1024 ^ 4 ≤ m ∧ m < 1024 ^ 5 ∧ sizeLoop m 1024 0 = (1024 ^ 5, 4))
    ∨ (1024 ^ 5 ≤ m ∧ sizeLoop m 1024 0 = (1024 ^ 6, 5)) := by
  have w2 : wrapInt64 (1024 * 1024) = 1024 ^ 2 := by decide
  have w3 : wrapInt64 (1024 ^ 2 * 1024) = 1024 ^ 3 := by decide
  have w4 : wrapInt64 (1024 ^ 3 * 1024) = 1024 ^ 4 := by decide
  have w5 : wrapInt64 (1024 ^ 4 * 1024) = 1024 ^ 5 := by decide
  have w6 : wrapInt64 (1024 ^ 5 * 1024) = 1024 ^ 6 := by decide
  norm_num at h ⊢
  by_cases h1 : m < 1024
  · exact Or.inl ⟨h1, sizeLoop_lt _ _ _ h1⟩
  right
  rw [sizeLoop_ge _ _ _ (by omega), w2]
  by_cases h2 : m < 1048576
  · exact Or.inl ⟨by omega, h2, sizeLoop_lt _ _ _ (by omega)⟩
  right
  rw [sizeLoop_ge _ _ _ (by omega), w3]
  by_cases h3 : m < 1073741824
  · exact Or.inl ⟨by omega, h3, sizeLoop_lt _ _ _ (by omega)⟩
  right
  rw [sizeLoop_ge _ _ _ (by omega), w4]
  by_cases h4 : m < 1099511627776
  · exact Or.inl ⟨by omega, h4, sizeLoop_lt _ _ _ (by omega)⟩
  right
  rw [sizeLoop_ge _ _ _ (by omega), w5]
  by_cases h5 : m < 1125899906842624
  · exact Or.inl ⟨by omega, h5, sizeLoop_lt _ _ _ (by omega)⟩
  right
  rw [sizeLoop_ge _ _ _ (by omega), w6]
  exact ⟨by omega, sizeLoop_lt _ _ _ (by omega)⟩

end utils

namespace utils

/-- Claim C13. For every `uint64` byte count, `HumanReadableSize` does not panic: below 1024
the result is the decimal rendering of the count followed by " B"; from 1024 on, the loop
ends with `exp` at most 5, an index inside "KMGTPE", and with `div = 1024 ^ (exp + 1)`, at
most `2 ^ 60`, so that no product wrapped, and `div <= bytes < 1024 * div`. -/
theorem HumanReadableSize_no_panic (sprintfF1 : Nat → Int → String) (bytes : Nat)
    (h : bytes < 2 ^ 64) :
    (∃ s, HumanReadableSize sprintfF1 bytes = some s)
    ∧ (bytes < 1024 → HumanReadableSize sprintfF1 bytes = some (toString bytes ++ " B"))
    ∧ (1024 ≤ bytes →
        (sizeLoop (bytes / unit) unit 0).2 ≤ 5
        ∧ (sizeLoop (bytes / unit) unit 0).2 < unitLetters.length
        ∧ (sizeLoop (bytes / unit) unit 0).1 = 1024 ^ ((sizeLoop (bytes / unit) unit 0).2 + 1)
        ∧ (sizeLoop (bytes / unit) unit 0).1 ≤ 2 ^ 60
        ∧ (sizeLoop (bytes / unit) unit 0).1 ≤ bytes
        ∧ (bytes : Int) < 1024 * (sizeLoop (bytes / unit) unit 0).1
        ∧ ∃ letter, unitLetters.toList.get? (sizeLoop (bytes / unit) unit 0).2 = some letter
            ∧ HumanReadableSize sprintfF1 bytes
              = some (sprintfF1 bytes (sizeLoop (bytes / unit) unit 0).1 ++ " "
                  ++ String.singleton letter ++ "iB")) := by
  have hsmall : bytes < 1024 →
      HumanReadableSize sprintfF1 bytes = some (toString bytes ++ " B") := by
    intro hb
    unfold HumanReadableSize
    rw [if_pos (by unfold unit; exact hb)]
  have hbig : 1024 ≤ bytes →
        (sizeLoop (bytes / unit) unit 0).2 ≤ 5
        ∧ (sizeLoop (bytes / unit) unit 0).2 < unitLetters.length
        ∧ (sizeLoop (bytes / unit) unit 0).1 = 1024 ^ ((sizeLoop (bytes / unit) unit 0).2 + 1)
        ∧ (sizeLoop (bytes / unit) unit 0).1 ≤ 2 ^ 60
        ∧ (sizeLoop (bytes / unit) unit 0).1 ≤ bytes
        ∧ (bytes : Int) < 1024 * (sizeLoop (bytes / unit) unit 0).1
        ∧ ∃ letter, unitLetters.toList.get? (sizeLoop (bytes / unit) unit 0).2 = some letter
            ∧ HumanReadableSize sprintfF1 bytes
              = some (sprintfF1 bytes (sizeLoop (bytes / unit) unit 0).1 ++ " "
                  ++ String.singleton letter ++ "iB") := by
    intro hb
    have hH : ∀ letter, unitLetters.toList.get? (sizeLoop (bytes / unit) unit 0).2 = some letter →
        HumanReadableSize sprintfF1 bytes
          = some (sprintfF1 bytes (sizeLoop (bytes / unit) unit 0).1 ++ " "
              ++ String.singleton letter ++ "iB") := by
      intro letter hl
      unfold HumanReadableSize
      rw [if_neg (by unfold unit; omega)]
      simp only [hl]
    have hm : bytes / 1024 < 2 ^ 54 := by
      norm_num at h ⊢
      omega
    have hu : unit = 1024 := rfl
    have hui : ((1024 : Nat) : Int) = 1024 := rfl
    rw [hu, hui] at hH ⊢
    rcases sizeLoop_uint64 (bytes / 1024) hm with ⟨h1, e⟩ | ⟨h1, h2, e⟩ | ⟨h1, h2, e⟩
      | ⟨h1, h2, e⟩ | ⟨h1, h2, e⟩ | ⟨h1, e⟩
    all_goals
      rw [e] at hH ⊢
      dsimp only at hH ⊢
      norm_num at h1
      refine ⟨by decide, by decide, by norm_num, by norm_num, by norm_num; omega,
        by norm_num; omega, _, rfl, hH _ rfl⟩
  refine ⟨?_, hsmall, hbig⟩
  by_cases hb : bytes < 1024
  · exact ⟨_, hsmall hb⟩
  · obtain ⟨_, _, _, _, _, _, letter, _, hl⟩ := hbig (by omega)
    exact ⟨_, hl⟩

theorem HumanReadableSize_no_panic_witness :
    (∃ s, HumanReadableSize (fun _ _ => "1.5") 1536 = some s)
    ∧ (∃ s, HumanReadableSize (fun _ _ => "16.0") (2 ^ 64 - 1) = some s)
    ∧ HumanReadableSize (fun _ _ => "") 1023 = some "1023 B" :=
  ⟨(HumanReadableSize_no_panic _ 1536 (by decide)).1,
   (HumanReadableSize_no_panic _ (2 ^ 64 - 1) (by decide)).1,
   (HumanReadableSize_no_panic _ 1023 (by decide)).2.1 (by decide)⟩

end utils

/-! ## Theorems: the errors `DecryptBundle` can return -/

open config

theorem config.DecryptBundleWith_hex_error (kdf : List Nat → List Nat → Nat → Nat → List Nat)
    (hex pin : String) (e : Hex.Error) (hdec : Hex.DecodeString hex = .error e) :
    DecryptBundleWith kdf hex pin = .error (.hexDecode e) := by
  unfold DecryptBundleWith
  rw [hdec]

/-- The ways `afterOpen` fails. -/
theorem config.afterOpen_error (r : Option (List Nat)) (err : BundleError)
    (h : afterOpen r = .error err) : err = .decrypt ∨ ∃ e, err = .unmarshal e := by
  unfold afterOpen at h
  cases r with
  | none =>
    left
    injection h with h
    exact h.symm
  | some p =>
    right
    dsimp only at h
    cases hu : Unmarshal p with
    | error e =>
      rw [hu] at h
      injection h with h
      exact ⟨e, h.symm⟩
    | ok v =>
      rw [hu] at h
      exact Except.noConfusion h

/-- Every failure of `DecryptBundle` is of one of four kinds. -/
theorem config.DecryptBundle_error_cases (hex pin : String) (err : BundleError)
    (h : DecryptBundle hex pin = .error err) :
    (∃ e, Hex.DecodeString hex = .error e ∧ err = .hexDecode e)
    ∨ (∃ b, Hex.DecodeString hex = .ok b ∧ b.length < 28 ∧ err = .tooShort b.length)
    ∨ err = .decrypt ∨ ∃ e, err = .unmarshal e := by
  cases hdec : Hex.DecodeString hex with
  | error e =>
    left
    have := DecryptBundleWith_hex_error PBKDF2.Key hex pin e hdec
    rw [DecryptBundle, this] at h
    injection h with h
    exact ⟨e, rfl, h.symm⟩
  | ok b =>
    right
    by_cases hlen : b.length < 28
    · left
      have := DecryptBundleWith_short PBKDF2.Key hex pin b hdec hlen
      rw [DecryptBundle, this] at h
      injection h with h
      exact ⟨b, rfl, hlen, h.symm⟩
    · right
      rw [DecryptBundle_eq_afterOpen hex pin _
        (openStep_of_decode hex pin b hdec (by omega))] at h
      exact afterOpen_error _ _ h

/-- Claim C12. For every input string and every PIN, `DecryptBundle` never returns the
errors of `aes.NewCipher`, of `cipher.NewGCM` or of the nonce size check, and every error
it returns is the hex decoding, the too-short, the decrypt or the unmarshal error: the
derived key always has 32 bytes, so the cipher and the GCM instance are created, with a
nonce size of 12, and the nonce slice always has 12 bytes. -/
theorem config.DecryptBundle_unreachable_errors (hex pin : String) :
    (∀ e, DecryptBundle hex pin ≠ .error (.aesCipher e))
    ∧ DecryptBundle hex pin ≠ .error .gcm
    ∧ (∀ expected got, DecryptBundle hex pin ≠ .error (.nonceSize expected got))
    ∧ (∀ err, DecryptBundle hex pin = .error err →
        (∃ e, err = .hexDecode e) ∨ (∃ n, err = .tooShort n) ∨ err = .decrypt
          ∨ ∃ e, err = .unmarshal e)
    ∧ (∀ salt, (deriveKey pin salt).length = 32
        ∧ ∃ block, AES.NewCipher (deriveKey pin salt) = .ok block
          ∧ ∃ aesgcm, GCM.NewGCM block = some aesgcm ∧ GCM.NonceSize aesgcm = 12)
    ∧ (∀ b, Hex.DecodeString hex = .ok b → 28 ≤ b.length →
        (sliceBytes b SALT_SIZE (SALT_SIZE + NONCE_SIZE_AES_GCM)).length = 12) := by
  have key : ∀ err, DecryptBundle hex pin = .error err →
      (∃ e, err = .hexDecode e) ∨ (∃ n, err = .tooShort n) ∨ err = .decrypt
        ∨ ∃ e, err = .unmarshal e := by
    intro err h
    rcases DecryptBundle_error_cases hex pin err h with ⟨e, _, he⟩ | ⟨b, _, _, he⟩ | he | he
    · exact Or.inl ⟨e, he⟩
    · exact Or.inr (Or.inl ⟨_, he⟩)
    · exact Or.inr (Or.inr (Or.inl he))
    · exact Or.inr (Or.inr (Or.inr he))
  refine ⟨fun e h => ?_, fun h => ?_, fun a b h => ?_, key, fun salt => ?_, fun b _ hlen => ?_⟩
  · rcases key _ h with ⟨_, h'⟩ | ⟨_, h'⟩ | h' | ⟨_, h'⟩ <;> cases h'
  · rcases key _ h with ⟨_, h'⟩ | ⟨_, h'⟩ | h' | ⟨_, h'⟩ <;> cases h'
  · rcases key _ h with ⟨_, h'⟩ | ⟨_, h'⟩ | h' | ⟨_, h'⟩ <;> cases h'
  · have hk := length_deriveKey pin salt
    exact ⟨hk, _, AES.NewCipher_of_length_32 _ hk, _, GCM.NewGCM_of_blockSize_16 _, rfl⟩
  · exact sliceBytes_nonce_length b hlen

/-! ## Theorems: the identifiers handed to the cloud calls -/

namespace commands

open gdrive


/-- Claim C11, counterexample. An upload whose folder reference is a folder link hands the
link itself to `UploadFile`, not the identifier `ExtractFileID` finds in it; and with the
reference "short123", on which `ExtractFileID` fails, `UploadFile` is called all the same. -/
theorem HandleUpload_hands_raw_reference :
    ExtractFileID "https://drive.google.com/drive/folders/1AbCDefGhIJKlmnoPQRstuVWXyz0123456789"
      = ("1AbCDefGhIJKlmnoPQRstuVWXyz0123456789", none)
    ∧ (HandleUpload offline exampleConfig "report.pdf"
        "https://drive.google.com/drive/folders/1AbCDefGhIJKlmnoPQRstuVWXyz0123456789").1
      = [.UploadFile "report.pdf"
          "https://drive.google.com/drive/folders/1AbCDefGhIJKlmnoPQRstuVWXyz0123456789"]
    ∧ ExtractFileID "short123"
      = ("", some "invalid or unextractable Google Drive ID/link format: short123")
    ∧ (HandleUpload offline exampleConfig "report.pdf" "short123").1
      = [.UploadFile "report.pdf" "short123"] := by
  refine ⟨by decide, by decide, by decide, by decide⟩

theorem HandleDelete_of_extracted {Time : Type} (w : World Time) (ref : String)
    (h : (ExtractFileID ref).2 = none) :
    (HandleDelete w ref).1 = [.DeleteDriveFile (ExtractFileID ref).1] := by
  unfold HandleDelete
  cases he : ExtractFileID ref with
  | mk id err =>
    rw [he] at h
    dsimp only at h
    subst h
    dsimp only
    cases DeleteDriveFile w id <;> rfl

theorem HandleDelete_of_failed {Time : Type} (w : World Time) (ref : String)
    (h : (ExtractFileID ref).2 ≠ none) :
    HandleDelete w ref = ([], .returned (some ("invalid file ID or link: " ++ errorMessage ref)))
    := by
  rcases ExtractFileID_cases ref with ⟨p, x, xs, _, _, _, he⟩ | ⟨_, he⟩ | ⟨_, _, he⟩
  · rw [he] at h; exact absurd rfl h
  · rw [he] at h; exact absurd rfl h
  · unfold HandleDelete
    rw [he]

theorem ExtractFileID_isCanonicalId (ref : String) (h : (ExtractFileID ref).2 = none) :
    isCanonicalId (ExtractFileID ref).1 := by
  rcases ExtractFileID_cases ref with ⟨p, x, xs, _, hlen, hall, he⟩ | ⟨hc, he⟩ | ⟨_, _, he⟩
  · rw [he]
    exact ⟨hlen, hall⟩
  · rw [he]
    exact hc
  · rw [he] at h
    exact Option.noConfusion h

theorem HandleUpload_first_call {Time : Type} (w : World Time) (appCfg : config.AppConfig)
    (filePath folderID : String) :
    (HandleUpload w appCfg filePath folderID).1.head?
      = some (.UploadFile filePath
          (if folderID = "" then appCfg.DefaultFolderID else folderID)) := by
  unfold HandleUpload
  dsimp only
  cases w.uploadFile filePath (if folderID = "" then appCfg.DefaultFolderID else folderID) with
  | error e => rfl
  | ok f =>
    dsimp only
    cases utils.HumanReadableSize w.sprintfF1 (uint64 f.Size) <;> rfl

/-- Claim C11, amended. In every world: a delete whose reference `ExtractFileID` accepts
calls `DeleteDriveFile` once, with the extracted identifier, which is canonical; a delete
whose reference it rejects makes no call and returns the error; an upload calls
`UploadFile` first, with the folder reference as given, or with the default folder when
the reference is empty. -/
theorem handlers_identifier {Time : Type} (w : World Time) :
    (∀ ref, (ExtractFileID ref).2 = none →
      (HandleDelete w ref).1 = [.DeleteDriveFile (ExtractFileID ref).1]
      ∧ isCanonicalId (ExtractFileID ref).1)
    ∧ (∀ ref, (ExtractFileID ref).2 ≠ none →
      (HandleDelete w ref).1 = []
      ∧ (HandleDelete w ref).2
        = .returned (some ("invalid file ID or link: " ++ errorMessage ref)))
    ∧ (∀ appCfg filePath folderID, folderID ≠ "" →
      (HandleUpload w appCfg filePath folderID).1.head? = some (.UploadFile filePath folderID))
    ∧ (∀ appCfg filePath,
      (HandleUpload w appCfg filePath "").1.head?
        = some (.UploadFile filePath appCfg.DefaultFolderID)) := by
  refine ⟨fun ref h => ⟨HandleDelete_of_extracted w ref h, ExtractFileID_isCanonicalId ref h⟩,
    fun ref h => ?_, fun appCfg filePath folderID h => ?_, fun appCfg filePath => ?_⟩
  · rw [HandleDelete_of_failed w ref h]
    exact ⟨rfl, rfl⟩
  · rw [HandleUpload_first_call, if_neg h]
  · rw [HandleUpload_first_call, if_pos rfl]

end commands
